import Mathlib

/-!
# gomqtt packet codec: boundary detection, PUBLISH and CONNACK

A shallow embedding of `packet/packet.go` (`DetectPacket`, `GetID`), `publish.go`
(`PublishPacket.Len`, `len`, `Decode`, `Encode`) and `connack.go`
(`ConnackCode.Valid`, `ConnackPacket.Len`, `Decode`, `Encode`).

Conventions.
* A Go `[]byte` is a `List Nat`; a byte is a natural number below 256.  Slices are
  taken with capacity equal to length, so slicing or indexing past the end panics.
* A Go `int` is 64 bits wide.  Byte counts are natural numbers; the only place where
  the source can leave the non-negative range is `DetectPacket`, whose result is an
  `Int` wrapped to 64 bits.
* A call returning `(int, error)` is a `Result`: `ok n v` for `(n, nil)` together
  with the value `v` the call produced (the decoded packet, or the destination buffer
  after the writes), `error n` for `(n, err)`, and `panic` for a run-time panic.
* The header and length-prefixed-string helpers (`headerLen`, `headerEncode`,
  `headerDecode`, `readLPBytes`, `writeLPBytes`, `validQOS`) and the packet type
  constants are not part of the available sources; they are modelled from the
  specification, and marked as such.
-/

namespace packet

/-! ## Results of Go calls and slice primitives -/

/-- Outcome of a Go call that returns `(int, error)` and may panic. -/
inductive Result (α : Type) where
  | ok (n : Nat) (v : α)
  | error (n : Nat)
  | panic
deriving DecidableEq, Repr

/-- The call returned a non-nil error. -/
def Result.isError {α : Type} : Result α → Bool
  | Result.error _ => true
  | _ => false

/-- Go `s[i:]`: panics (`none`) when `i` exceeds the length. -/
def sliceFrom (s : List Nat) (i : Nat) : Option (List Nat) :=
  if i ≤ s.length then some (s.drop i) else none

/-- Go `s[i:j]`: panics (`none`) unless `i ≤ j ≤ len(s)`. -/
def slice (s : List Nat) (i j : Nat) : Option (List Nat) :=
  if i ≤ j ∧ j ≤ s.length then some ((s.drop i).take (j - i)) else none

/-- Go builtin `copy(dst, src)`: overwrites the first `min(len(dst), len(src))` bytes
of `dst`; the result is the new content of `dst`. -/
def copy (dst src : List Nat) : List Nat :=
  src.take dst.length ++ dst.drop src.length

/-- Go `binary.BigEndian.Uint16(b)`: `uint16(b[1]) | uint16(b[0])<<8`, panicking when
`b` has fewer than two bytes. -/
def Uint16 : List Nat → Option Nat
  | b0 :: b1 :: _ => some (b1 ||| (b0 <<< 8))
  | _ => none

/-- Go `binary.BigEndian.PutUint16(b, v)`: `b[0] = byte(v >> 8); b[1] = byte(v)`,
panicking when `b` has fewer than two bytes; the result is the new content of `b`. -/
def PutUint16 (b : List Nat) (v : Nat) : Option (List Nat) :=
  match b with
  | _ :: _ :: rest => some ((v >>> 8) % 256 :: v % 256 :: rest)
  | _ => none

/-- Go `s[i] = v`: panics (`none`) when `i` is not below the length; the result is the
new content of `s`. -/
def setIndex (s : List Nat) (i v : Nat) : Option (List Nat) :=
  if i < s.length then some (s.set i v) else none

/-- Conversion to Go's 64-bit `int`: two's complement wrap-around. -/
def toInt64 (x : Int) : Int :=
  (x + 2 ^ 63) % 2 ^ 64 - 2 ^ 63

/-- Loop of Go's `binary.Uvarint`: `i` is the index of the byte under inspection, `x`
the accumulated `uint64` and `s` the shift.  `MaxVarintLen64` is 10. -/
def uvarintLoop : List Nat → Nat → Nat → Nat → Nat × Int
  | [], _, _, _ => (0, 0)
  | b :: rest, i, x, s =>
    if i = 10 then (0, -((i : Int) + 1))
    else if b < 0x80 then
      if i = 9 ∧ b > 1 then (0, -((i : Int) + 1))
      else ((x ||| (b <<< s)) % 2 ^ 64, (i : Int) + 1)
    else uvarintLoop rest (i + 1) ((x ||| ((b &&& 0x7f) <<< s)) % 2 ^ 64) (s + 7)

/-- Go `binary.Uvarint(buf)`: the decoded `uint64` and the number of bytes read;
the count is 0 when the buffer ends inside the varint and negative on overflow. -/
def Uvarint (buf : List Nat) : Nat × Int :=
  uvarintLoop buf 0 0 0

/-! ## packet.go -/

/-- `DetectPacket` of `packet/packet.go`: the detected length and the packet type. -/
def DetectPacket (src : List Nat) : Int × Nat :=
  if src.length < 2 then (0, 0)
  else
    let t := src.headD 0 >>> 4
    let r := Uvarint (src.drop 1)
    if r.2 ≤ 0 then (0, 0)
    else (toInt64 (1 + r.2 + toInt64 (r.1 : Int)), t)

/-! ## Remaining-length varints, as the specification describes them -/

/-- A complete remaining-length varint in the words of the spec: every byte but the
last has the continuation bit set, the last one has it clear. -/
def isVarint : List Nat → Bool
  | [] => false
  | b :: rest =>
    match rest with
    | [] => decide (b < 128)
    | _ :: _ => decide (128 ≤ b) && isVarint rest

/-- The value a varint encodes in the words of the spec: each byte holds 7 value bits,
least significant group first. -/
def varintValue : List Nat → Nat
  | [] => 0
  | b :: rest => b % 128 + 128 * varintValue rest

/-! ## Helpers modelled from the specification -/

/-- Modelled from the spec: the packet type constant `CONNACK` (the type declarations
are missing); the 14 kinds are numbered 1..14 in the order the spec lists them. -/
def CONNACK : Nat := 2

/-- Modelled from the spec: the packet type constant `PUBLISH` (the type declarations
are missing); the 14 kinds are numbered 1..14 in the order the spec lists them. -/
def PUBLISH : Nat := 3

/-- Modelled from the spec: the packet type constant `CONNECT` (the type declarations
are missing); kind 1 of the 14 kinds in the order the spec lists them. -/
def CONNECT : Nat := 1

/-- Modelled from the spec: the packet type constant `PUBACK` (the type declarations
are missing); kind 4 of the 14 kinds in the order the spec lists them. -/
def PUBACK : Nat := 4

/-- Modelled from the spec: the packet type constant `PUBREC` (the type declarations
are missing); kind 5 of the 14 kinds in the order the spec lists them. -/
def PUBREC : Nat := 5

/-- Modelled from the spec: the packet type constant `PUBREL` (the type declarations
are missing); kind 6 of the 14 kinds in the order the spec lists them. -/
def PUBREL : Nat := 6

/-- Modelled from the spec: the packet type constant `PUBCOMP` (the type declarations
are missing); kind 7 of the 14 kinds in the order the spec lists them. -/
def PUBCOMP : Nat := 7

/-- Modelled from the spec: the packet type constant `SUBSCRIBE` (the type declarations
are missing); kind 8 of the 14 kinds in the order the spec lists them. -/
def SUBSCRIBE : Nat := 8

/-- Modelled from the spec: the packet type constant `SUBACK` (the type declarations
are missing); kind 9 of the 14 kinds in the order the spec lists them. -/
def SUBACK : Nat := 9

/-- Modelled from the spec: the packet type constant `UNSUBSCRIBE` (the type declarations
are missing); kind 10 of the 14 kinds in the order the spec lists them. -/
def UNSUBSCRIBE : Nat := 10

/-- Modelled from the spec: the packet type constant `UNSUBACK` (the type declarations
are missing); kind 11 of the 14 kinds in the order the spec lists them. -/
def UNSUBACK : Nat := 11

/-- Modelled from the spec: the packet type constant `PINGREQ` (the type declarations
are missing); kind 12 of the 14 kinds in the order the spec lists them. -/
def PINGREQ : Nat := 12

/-- Modelled from the spec: the packet type constant `PINGRESP` (the type declarations
are missing); kind 13 of the 14 kinds in the order the spec lists them. -/
def PINGRESP : Nat := 13

/-- Modelled from the spec: the packet type constant `DISCONNECT` (the type declarations
are missing); kind 14 of the 14 kinds in the order the spec lists them. -/
def DISCONNECT : Nat := 14

/-- Modelled from the spec: `validQOS` is missing; the QoS validator "accepts exactly
{0,1,2}". -/
def validQOS (qos : Nat) : Bool :=
  qos = 0 || qos = 1 || qos = 2

/-- Modelled from the spec: the remaining-length encoder is missing; a value up to
268,435,455 is written as 1-4 bytes, "each holding 7 value bits plus a high
continuation bit", least significant group first; a value that would need a fifth
byte fails to encode. -/
def remainingLengthEncode (rl : Nat) : Option (List Nat) :=
  if rl ≤ 127 then some [rl]
  else if rl ≤ 16383 then some [rl % 128 + 128, rl / 128]
  else if rl ≤ 2097151 then some [rl % 128 + 128, rl / 128 % 128 + 128, rl / 16384]
  else if rl ≤ 268435455 then
    some [rl % 128 + 128, rl / 128 % 128 + 128, rl / 16384 % 128 + 128, rl / 2097152]
  else none

/-- Modelled from the spec: the remaining-length decoder is missing; it "reads bytes
until the continuation bit is clear, and fails with a format error if a 5th
continuation byte would be required (overflow) or if the buffer is exhausted
mid-sequence".  The first argument is the number of bytes that may still be read;
the result is the value and the number of bytes read. -/
def remainingLengthDecode : Nat → List Nat → Option (Nat × Nat)
  | 0, _ => none
  | _ + 1, [] => none
  | k + 1, b :: rest =>
    if b < 128 then some (b, 1)
    else
      match remainingLengthDecode k rest with
      | some (v, n) => some (b % 128 + 128 * v, n + 1)
      | none => none

/-- Modelled from the spec: `headerLen` is missing; the fixed header is "1 type/flags
byte + 1-4 byte remaining-length varint". -/
def headerLen (rl : Nat) : Nat :=
  if rl ≤ 127 then 2
  else if rl ≤ 16383 then 3
  else if rl ≤ 2097151 then 4
  else 5

/-- Modelled from the spec: `headerEncode` is missing; "given explicit flags, payload
length, and total declared length, writes the type/flags byte followed by the
remaining-length varint; fails if the destination buffer is smaller than the computed
total header+payload length"; a remaining length above 268,435,455 fails to encode.
The spec does not fix the count returned with an error; the model returns 0.  A
destination shorter than the header itself is rejected in the same way. -/
def headerEncode (dst : List Nat) (flags rl tl t : Nat) : Result (List Nat) :=
  if dst.length < tl then Result.error 0
  else
    match remainingLengthEncode rl with
    | none => Result.error 0
    | some bs =>
      if dst.length < 1 + bs.length then Result.error 0
      else
        Result.ok (1 + bs.length)
          ((((t <<< 4) ||| flags) % 256) :: bs ++ dst.drop (1 + bs.length))

/-- Modelled from the spec: `headerDecode` is missing; it "reads one byte, splits into
the top 4 bits (type) and bottom 4 bits (flags); validates the type is a known,
non-reserved value; decodes the remaining-length varint; returns (header bytes
consumed, flags, remaining length) or a format error"; values 0 and 15 of the type are
reserved.  The spec states no comparison of the decoded type with the expected type
`t` and none of the remaining length with the bytes that follow the header, and the
model makes neither.  The spec does not fix the count returned with a format error;
the model returns 0, and no statement below depends on that count.  The value of an
`ok` is the pair of the flags and the remaining length. -/
def headerDecode (src : List Nat) (_t : Nat) : Result (Nat × Nat) :=
  match src with
  | [] => Result.error 0
  | b0 :: rest =>
    let decodedType := b0 >>> 4
    let flags := b0 &&& 0x0f
    if decodedType = 0 ∨ 15 ≤ decodedType then Result.error 0
    else
      match remainingLengthDecode 4 rest with
      | none => Result.error 0
      | some (rl, k) => Result.ok (1 + k) (flags, rl)

/-- Modelled from the spec: `readLPBytes` is missing; a length-prefixed byte string is
"a 2-byte big-endian unsigned length followed by that many raw bytes.  Decoding fails
if fewer than 2 bytes remain for the length field, or if the declared length exceeds
the remaining buffer".  The spec does not fix the count returned with an error; the
model returns 0. -/
def readLPBytes (buf : List Nat) : Result (List Nat) :=
  match Uint16 buf with
  | none => Result.error 0
  | some n =>
    if buf.length - 2 < n then Result.error 0
    else Result.ok (2 + n) ((buf.drop 2).take n)

/-- Modelled from the spec: `writeLPBytes` is missing; it writes "a 2-byte big-endian
unsigned length followed by that many raw bytes.  Encoding fails if the byte count
exceeds 65535"; as every encode routine it rejects a destination smaller than the
bytes to write.  The spec does not fix the count returned with an error; the model
returns 0. -/
def writeLPBytes (buf : List Nat) (b : List Nat) : Result (List Nat) :=
  if 65535 < b.length then Result.error 0
  else if buf.length < 2 + b.length then Result.error 0
  else
    match PutUint16 buf b.length with
    | none => Result.panic
    | some buf1 => Result.ok (2 + b.length) (buf1.take 2 ++ copy (buf1.drop 2) b)

/-! ## publish.go -/

/-- The `PublishPacket` struct of `publish.go`; `QOS` is a byte and `PacketID` a
16-bit unsigned integer. -/
structure PublishPacket where
  Topic : List Nat
  Payload : List Nat
  QOS : Nat
  Retain : Bool
  Dup : Bool
  PacketID : Nat
deriving DecidableEq, Repr

/-- `NewPublishPacket`: the zero-valued packet. -/
def NewPublishPacket : PublishPacket :=
  { Topic := [], Payload := [], QOS := 0, Retain := false, Dup := false, PacketID := 0 }

/-- `PublishPacket.Type`. -/
def PublishPacket.Type (_pm : PublishPacket) : Nat :=
  PUBLISH

/-- `PublishPacket.len`: the payload length. -/
def PublishPacket.len (pm : PublishPacket) : Nat :=
  let total := 2 + pm.Topic.length + pm.Payload.length
  if pm.QOS ≠ 0 then total + 2 else total

/-- `PublishPacket.Len`: the byte length of the encoded packet. -/
def PublishPacket.Len (pm : PublishPacket) : Nat :=
  let ml := pm.len
  headerLen ml + ml

/-- Lines 122-131 of `PublishPacket.Decode`: the payload length is computed from the
remaining length and the payload, when its length is positive, is sliced out of
`src`. -/
def PublishPacket.decodePayload (pm : PublishPacket) (src : List Nat) (total hl rl : Nat) :
    Result PublishPacket :=
  let l : Int := (rl : Int) - ((total : Int) - (hl : Int))
  if l > 0 then
    match slice src total (total + l.toNat) with
    | none => Result.panic
    | some payload => Result.ok (total + payload.length) { pm with Payload := payload }
  else Result.ok total pm

/-- `PublishPacket.Decode`: decodes `src` into the receiver `pm`; the value of an `ok`
is the receiver after the call. -/
def PublishPacket.Decode (pm : PublishPacket) (src : List Nat) : Result PublishPacket :=
  match headerDecode src PUBLISH with
  | Result.panic => Result.panic
  | Result.error hl => Result.error hl
  | Result.ok hl (flags, rl) =>
    let total := hl
    let pm := { pm with
      Dup := ((flags >>> 3) &&& 0x1) == 1
      Retain := (flags &&& 0x1) == 1
      QOS := (flags >>> 1) &&& 0x3 }
    if !validQOS pm.QOS then Result.error total
    else if src.length < total + 2 then Result.error total
    else
      match sliceFrom src total with
      | none => Result.panic
      | some s =>
        match readLPBytes s with
        | Result.panic => Result.panic
        | Result.error n => Result.error (total + n)
        | Result.ok n topic =>
          let pm := { pm with Topic := topic }
          let total := total + n
          if pm.QOS ≠ 0 then
            if src.length < total + 2 then Result.error total
            else
              match (sliceFrom src total).bind Uint16 with
              | none => Result.panic
              | some id => PublishPacket.decodePayload { pm with PacketID := id } src (total + 2) hl rl
          else PublishPacket.decodePayload pm src total hl rl

/-- Lines 189-193 of `PublishPacket.Encode`: the payload is copied behind the bytes
written so far. -/
def PublishPacket.encodePayload (pm : PublishPacket) (dst : List Nat) (total : Nat) :
    Result (List Nat) :=
  match sliceFrom dst total with
  | none => Result.panic
  | some s => Result.ok (total + pm.Payload.length) (dst.take total ++ copy s pm.Payload)

/-- `PublishPacket.Encode`: encodes the packet into `dst`; the value of an `ok` is the
content of `dst` after the call. -/
def PublishPacket.Encode (pm : PublishPacket) (dst : List Nat) : Result (List Nat) :=
  if pm.Topic.length = 0 then Result.error 0
  else
    let flags := 0
    let flags := if pm.Dup then flags ||| 0x8 else flags &&& 247
    let flags := if pm.Retain then flags ||| 0x1 else flags &&& 254
    if !validQOS pm.QOS then Result.error 0
    else
      let flags := (flags &&& 249) ||| ((pm.QOS <<< 1) % 256)
      match headerEncode dst flags pm.len pm.Len PUBLISH with
      | Result.panic => Result.panic
      | Result.error n => Result.error n
      | Result.ok n dst1 =>
        let total := n
        match sliceFrom dst1 total with
        | none => Result.panic
        | some s =>
          match writeLPBytes s pm.Topic with
          | Result.panic => Result.panic
          | Result.error m => Result.error (total + m)
          | Result.ok m s1 =>
            let dst2 := dst1.take total ++ s1
            let total := total + m
            if pm.QOS ≠ 0 then
              match (sliceFrom dst2 total).bind (fun s2 => PutUint16 s2 pm.PacketID) with
              | none => Result.panic
              | some s3 => PublishPacket.encodePayload pm (dst2.take total ++ s3) (total + 2)
            else PublishPacket.encodePayload pm dst2 total

/-! ## The PUBLISH wire layout, as the specification describes it -/

/-- The first byte of a PUBLISH packet in the words of the spec: the type in the high
nibble, DUP in bit 3, the QoS in bits 1-2 and RETAIN in bit 0. -/
def publishFirstByte (p : PublishPacket) : Nat :=
  (PUBLISH <<< 4) ||| (if p.Dup then 8 else 0) ||| (p.QOS <<< 1) ||| (if p.Retain then 1 else 0)

/-- The PUBLISH wire image in the words of the spec, for the remaining-length varint
`vs`: the first byte, the varint, the 2-byte big-endian topic length, the topic, the
2-byte big-endian packet identifier if and only if the QoS is not 0, the payload. -/
def publishWire (p : PublishPacket) (vs : List Nat) : List Nat :=
  publishFirstByte p :: vs ++ [p.Topic.length / 256, p.Topic.length % 256] ++ p.Topic
    ++ (if p.QOS ≠ 0 then [p.PacketID / 256, p.PacketID % 256] else []) ++ p.Payload

/-- The remaining length of a PUBLISH packet in the words of the spec. -/
def publishRemainingLength (p : PublishPacket) : Nat :=
  2 + p.Topic.length + p.Payload.length + (if p.QOS ≠ 0 then 2 else 0)

/-! ## connack.go -/

/-- `ConnackCode.Valid`. -/
def ConnackCode.Valid (cc : Nat) : Bool :=
  cc ≤ 5

/-- The `ConnackPacket` struct of `connack.go`; `ReturnCode` is a byte. -/
structure ConnackPacket where
  SessionPresent : Bool
  ReturnCode : Nat
deriving DecidableEq, Repr

/-- `NewConnackPacket`: the zero-valued packet. -/
def NewConnackPacket : ConnackPacket :=
  { SessionPresent := false, ReturnCode := 0 }

/-- `ConnackPacket.Type`. -/
def ConnackPacket.Type (_cm : ConnackPacket) : Nat :=
  CONNACK

/-- `ConnackPacket.Len`. -/
def ConnackPacket.Len (_cm : ConnackPacket) : Nat :=
  headerLen 2 + 2

/-- `ConnackPacket.Decode`: decodes `src` into the receiver `cm`; the value of an `ok`
is the receiver after the call.  Indexing `src[total]` past the end panics. -/
def ConnackPacket.Decode (cm : ConnackPacket) (src : List Nat) : Result ConnackPacket :=
  match headerDecode src CONNACK with
  | Result.panic => Result.panic
  | Result.error hl => Result.error hl
  | Result.ok hl (_, rl) =>
    let total := hl
    if rl ≠ 2 then Result.error total
    else
      match src[total]? with
      | none => Result.panic
      | some connackFlags =>
        let cm := { cm with SessionPresent := (connackFlags &&& 0x1) == 1 }
        let total := total + 1
        if connackFlags &&& 254 ≠ 0 then Result.error 0
        else
          match src[total]? with
          | none => Result.panic
          | some rc =>
            let cm := { cm with ReturnCode := rc }
            let total := total + 1
            if !ConnackCode.Valid cm.ReturnCode then Result.error 0
            else Result.ok total cm

/-- `ConnackPacket.Encode`: encodes the packet into `dst`; the value of an `ok` is the
content of `dst` after the call.  Assigning `dst[total]` past the end panics. -/
def ConnackPacket.Encode (cm : ConnackPacket) (dst : List Nat) : Result (List Nat) :=
  match headerEncode dst 0 2 cm.Len CONNACK with
  | Result.panic => Result.panic
  | Result.error n => Result.error n
  | Result.ok n dst1 =>
    let total := n
    match setIndex dst1 total (if cm.SessionPresent then 1 else 0) with
    | none => Result.panic
    | some dst2 =>
      let total := total + 1
      if !ConnackCode.Valid cm.ReturnCode then Result.error total
      else
        match setIndex dst2 total cm.ReturnCode with
        | none => Result.panic
        | some dst3 => Result.ok (total + 1) dst3

/-! ## packet.go: the packet identifier accessor -/

/-- Modelled from the spec: a `GenericPacket` interface value, by the struct behind it.
Of the 14 packet structs of the package only `PublishPacket` and `ConnackPacket` are
declared in the available sources; the others are represented by what `GetID` reads
from them, the field `ID` of those that have one (PUBACK, PUBREC, PUBREL, PUBCOMP,
SUBSCRIBE, SUBACK, UNSUBSCRIBE, UNSUBACK).  `foreign t` is a value of any other type
that implements the interface and whose `Type()` returns `t`. -/
inductive GenericPacket where
  | connect
  | connack (cm : ConnackPacket)
  | publish (pm : PublishPacket)
  | puback (ID : Nat)
  | pubrec (ID : Nat)
  | pubrel (ID : Nat)
  | pubcomp (ID : Nat)
  | subscribe (ID : Nat)
  | suback (ID : Nat)
  | unsubscribe (ID : Nat)
  | unsuback (ID : Nat)
  | pingreq
  | pingresp
  | disconnect
  | foreign (t : Nat)
deriving DecidableEq, Repr

/-- The method `Type()` of a `GenericPacket`: the constant of each packet struct. -/
def GenericPacket.Type : GenericPacket → Nat
  | GenericPacket.connect => CONNECT
  | GenericPacket.connack cm => cm.Type
  | GenericPacket.publish pm => pm.Type
  | GenericPacket.puback _ => PUBACK
  | GenericPacket.pubrec _ => PUBREC
  | GenericPacket.pubrel _ => PUBREL
  | GenericPacket.pubcomp _ => PUBCOMP
  | GenericPacket.subscribe _ => SUBSCRIBE
  | GenericPacket.suback _ => SUBACK
  | GenericPacket.unsubscribe _ => UNSUBSCRIBE
  | GenericPacket.unsuback _ => UNSUBACK
  | GenericPacket.pingreq => PINGREQ
  | GenericPacket.pingresp => PINGRESP
  | GenericPacket.disconnect => DISCONNECT
  | GenericPacket.foreign t => t

/-- The value is one of the 14 packet structs of the package. -/
def GenericPacket.isPackageStruct : GenericPacket → Bool
  | GenericPacket.foreign _ => false
  | _ => true

/-- The identifier field of the packet structs that have one (`PacketID` in
`publish.go`, read as `ID` by `GetID`). -/
def GenericPacket.ID : GenericPacket → Option Nat
  | GenericPacket.publish pm => some pm.PacketID
  | GenericPacket.puback id => some id
  | GenericPacket.pubrec id => some id
  | GenericPacket.pubrel id => some id
  | GenericPacket.pubcomp id => some id
  | GenericPacket.subscribe id => some id
  | GenericPacket.suback id => some id
  | GenericPacket.unsubscribe id => some id
  | GenericPacket.unsuback id => some id
  | _ => none

/-- `GetID` of `packet/packet.go`: a switch on `packet.Type()`; in each case the type
assertion `packet.(*XPacket)` panics (`none`) when the value is not of that struct. -/
def GetID (packet : GenericPacket) : Option (Nat × Bool) :=
  let t := packet.Type
  if t = PUBLISH then
    match packet with
    | GenericPacket.publish pm => some (pm.PacketID, true)
    | _ => none
  else if t = PUBACK then
    match packet with
    | GenericPacket.puback id => some (id, true)
    | _ => none
  else if t = PUBREC then
    match packet with
    | GenericPacket.pubrec id => some (id, true)
    | _ => none
  else if t = PUBREL then
    match packet with
    | GenericPacket.pubrel id => some (id, true)
    | _ => none
  else if t = PUBCOMP then
    match packet with
    | GenericPacket.pubcomp id => some (id, true)
    | _ => none
  else if t = SUBSCRIBE then
    match packet with
    | GenericPacket.subscribe id => some (id, true)
    | _ => none
  else if t = SUBACK then
    match packet with
    | GenericPacket.suback id => some (id, true)
    | _ => none
  else if t = UNSUBSCRIBE then
    match packet with
    | GenericPacket.unsubscribe id => some (id, true)
    | _ => none
  else if t = UNSUBACK then
    match packet with
    | GenericPacket.unsuback id => some (id, true)
    | _ => none
  else some (0, false)

/-- The identifier-carrying packet types: the cases of the switch in `GetID`. -/
def carriesID (t : Nat) : Bool :=
  t = PUBLISH || t = PUBACK || t = PUBREC || t = PUBREL || t = PUBCOMP || t = SUBSCRIBE ||
    t = SUBACK || t = UNSUBSCRIBE || t = UNSUBACK

/-! ## Bit arithmetic -/

theorem or_shiftLeft_eq_add (x b s : Nat) (h : x < 2 ^ s) :
    x ||| (b <<< s) = x + b * 2 ^ s := by
  rw [Nat.shiftLeft_eq, Nat.lor_comm, Nat.mul_comm b, ← Nat.mul_add_lt_is_or h, Nat.add_comm]

theorem and_127_eq_mod (b : Nat) : b &&& 0x7f = b % 128 :=
  Nat.and_pow_two_sub_one_eq_mod b 7

theorem continuation_bit_ge (b : Nat) (h : b &&& 0x80 ≠ 0) : 128 ≤ b := by
  by_contra hlt
  have hb : b < 128 := by omega
  have key : ∀ c < 128, c &&& 0x80 = 0 := by decide
  exact h (key b hb)

/-! ## binary.Uvarint -/

/-- When every byte the loop may still read (positions below `10 - i`) has the
continuation bit set, the count is not positive. -/
theorem uvarintLoop_continuation (buf : List Nat) :
    ∀ i x s : Nat, i ≤ 10 → (∀ j (hj : j < buf.length), i + j < 10 → 128 ≤ buf[j]) →
      (uvarintLoop buf i x s).2 ≤ 0 := by
  induction buf with
  | nil => intro i x s _ _; simp [uvarintLoop]
  | cons b rest ih =>
    intro i x s hi10 h
    unfold uvarintLoop
    by_cases hi : i = 10
    · simp [hi]
    · have hb : 128 ≤ b := by
        have := h 0 (by simp) (by omega)
        simpa using this
      have hnb : ¬ b < 128 := by omega
      simp only [hi, if_false]
      rw [if_neg hnb]
      apply ih _ _ _ (by omega)
      intro j hj hij
      have := h (j + 1) (by simp; omega) (by omega)
      simpa using this

/-- A positive count means that the buffer starts with a complete varint of that many
bytes, at most 10 in all. -/
theorem uvarintLoop_pos (buf : List Nat) :
    ∀ i x s : Nat, i ≤ 10 → 0 < (uvarintLoop buf i x s).2 →
      ∃ vs rest, buf = vs ++ rest ∧ isVarint vs = true ∧
        (uvarintLoop buf i x s).2 = (i : Int) + vs.length ∧ i + vs.length ≤ 10 := by
  induction buf with
  | nil => intro i x s _ h; simp [uvarintLoop] at h
  | cons b rest ih =>
    intro i x s hi10 h
    unfold uvarintLoop at h ⊢
    by_cases hi : i = 10
    · simp [hi] at h
    · simp only [hi, if_false] at h ⊢
      by_cases hb : b < 128
      · rw [if_pos hb] at h ⊢
        by_cases hov : i = 9 ∧ b > 1
        · rw [if_pos hov] at h; simp at h; omega
        · rw [if_neg hov]
          refine ⟨[b], rest, rfl, by simp [isVarint, hb], by simp, ?_⟩
          simp; omega
      · rw [if_neg hb] at h ⊢
        obtain ⟨vs, rest1, hbuf, hvs, hn, hle⟩ := ih _ _ _ (by omega) h
        refine ⟨b :: vs, rest1, by simp [hbuf], ?_, ?_, ?_⟩
        · cases vs with
          | nil => simp [isVarint] at hvs
          | cons c cs =>
            simp only [isVarint] at hvs ⊢
            simp only [Bool.and_eq_true, decide_eq_true_eq]
            exact ⟨by omega, hvs⟩
        · rw [hn]; simp; omega
        · simp; omega

theorem isVarint_singleton (b : Nat) : isVarint [b] = decide (b < 128) := rfl

theorem isVarint_cons_cons (b c : Nat) (cs : List Nat) :
    isVarint (b :: c :: cs) = (decide (128 ≤ b) && isVarint (c :: cs)) := rfl

/-- A buffer starts with at most one complete varint. -/
theorem isVarint_append_unique (vs : List Nat) :
    ∀ (ws r r' : List Nat), isVarint vs = true → isVarint ws = true →
      vs ++ r = ws ++ r' → vs = ws ∧ r = r' := by
  induction vs with
  | nil => intro ws r r' h; simp [isVarint] at h
  | cons b tl ih =>
    intro ws r r' hv hw he
    cases ws with
    | nil => simp [isVarint] at hw
    | cons c cs =>
      simp only [List.cons_append, List.cons.injEq] at he
      obtain ⟨rfl, he⟩ := he
      cases tl with
      | nil =>
        simp only [isVarint_singleton, decide_eq_true_eq] at hv
        cases cs with
        | nil => exact ⟨rfl, by simpa using he⟩
        | cons d ds =>
          simp only [isVarint_cons_cons, Bool.and_eq_true, decide_eq_true_eq] at hw
          omega
      | cons x xs =>
        simp only [isVarint_cons_cons, Bool.and_eq_true, decide_eq_true_eq] at hv
        cases cs with
        | nil =>
          simp only [isVarint_singleton, decide_eq_true_eq] at hw
          omega
        | cons d ds =>
          simp only [isVarint_cons_cons, Bool.and_eq_true, decide_eq_true_eq] at hw
          obtain ⟨h1, h2⟩ := ih (d :: ds) r r' hv.2 hw.2 he
          exact ⟨by rw [h1], h2⟩

theorem varintValue_lt (vs : List Nat) : varintValue vs < 128 ^ vs.length := by
  induction vs with
  | nil => simp [varintValue]
  | cons b rest ih =>
    simp only [varintValue, List.length_cons, pow_succ]
    have := Nat.mod_lt b (show 0 < 128 by decide)
    omega

/-- On a complete varint of at most 9 bytes in all the loop returns the value the
varint encodes and the number of its bytes, whatever follows it. -/
theorem uvarintLoop_value (vs : List Nat) :
    ∀ (rest : List Nat) (i x s : Nat), isVarint vs = true → i + vs.length ≤ 9 →
      s = 7 * i → x < 2 ^ s →
      uvarintLoop (vs ++ rest) i x s
        = (x + 2 ^ s * varintValue vs, (i : Int) + vs.length) := by
  induction vs with
  | nil => intro rest i x s h; simp [isVarint] at h
  | cons b tl ih =>
    intro rest i x s hv hlen hs hx
    have hi : i ≠ 10 := by simp at hlen; omega
    have hpow : 2 ^ (s + 7) ≤ 2 ^ 63 :=
      Nat.pow_le_pow_right (by decide) (by simp at hlen; omega)
    have hp7 : 2 ^ (s + 7) = 2 ^ s * 128 := by rw [pow_add]; norm_num
    cases tl with
    | nil =>
      simp only [isVarint_singleton, decide_eq_true_eq] at hv
      have h9 : ¬ (i = 9 ∧ b > 1) := by simp at hlen; omega
      rw [List.singleton_append, uvarintLoop, if_neg hi]
      rw [if_pos hv, if_neg h9, or_shiftLeft_eq_add x b s hx]
      have hmod : b % 128 = b := Nat.mod_eq_of_lt hv
      have hbs : b * 2 ^ s ≤ 127 * 2 ^ s := Nat.mul_le_mul_right _ (by omega)
      have hlt : x + b * 2 ^ s < 2 ^ 64 := by
        have : (2:Nat) ^ 63 < 2 ^ 64 := by norm_num
        omega
      simp only [varintValue, hmod, Nat.mul_zero, Nat.add_zero, List.length_singleton]
      rw [Nat.mod_eq_of_lt hlt, Nat.mul_comm]
      simp
    | cons c cs =>
      simp only [isVarint_cons_cons, Bool.and_eq_true, decide_eq_true_eq] at hv
      have hnb : ¬ b < 128 := by omega
      rw [List.cons_append, uvarintLoop, if_neg hi]
      rw [if_neg hnb, and_127_eq_mod, or_shiftLeft_eq_add x _ s hx]
      have hm := Nat.mod_lt b (show 0 < 128 by decide)
      have hbs : b % 128 * 2 ^ s ≤ 127 * 2 ^ s := Nat.mul_le_mul_right _ (by omega)
      have hlt : x + b % 128 * 2 ^ s < 2 ^ (s + 7) := by omega
      have hlt64 : x + b % 128 * 2 ^ s < 2 ^ 64 := by
        have : (2:Nat) ^ 63 < 2 ^ 64 := by norm_num
        omega
      rw [Nat.mod_eq_of_lt hlt64]
      have := ih rest (i + 1) (x + b % 128 * 2 ^ s) (s + 7) hv.2
        (by simp at hlen ⊢; omega) (by omega) hlt
      rw [this]
      simp only [varintValue, List.length_cons, hp7]
      refine Prod.ext ?_ ?_
      · simp only; ring
      · simp only; push_cast; ring

theorem toInt64_of_lt (x : Int) (h0 : 0 ≤ x) (h : x < 2 ^ 63) : toInt64 x = x := by
  unfold toInt64
  have h63 : (2:Int) ^ 63 = 9223372036854775808 := by norm_num
  have h64 : (2:Int) ^ 64 = 18446744073709551616 := by norm_num
  rw [h63, h64] at *
  omega

/-! ## DetectPacket -/

/-- `DetectPacket` on a buffer that starts with a type/flags byte and a complete
varint of at most 8 bytes: the header length plus the encoded value, and the high
nibble of the first byte. -/
theorem DetectPacket_header (b0 : Nat) (vs rest : List Nat) (hv : isVarint vs = true)
    (hk : vs.length ≤ 8) :
    DetectPacket (b0 :: vs ++ rest)
      = (((1 + vs.length + varintValue vs : Nat) : Int), b0 >>> 4) := by
  have hne : vs ≠ [] := by rintro rfl; simp [isVarint] at hv
  have hpos : 0 < vs.length := List.length_pos.mpr hne
  have hval := uvarintLoop_value vs rest 0 0 0 hv (by omega) (by simp) (by simp)
  have hlt := varintValue_lt vs
  have hle : 128 ^ vs.length ≤ 128 ^ 8 := Nat.pow_le_pow_right (by decide) hk
  have h128 : (128:Nat) ^ 8 = 72057594037927936 := by norm_num
  have h63 : (2:Int) ^ 63 = 9223372036854775808 := by norm_num
  have hlen : ¬ (b0 :: (vs ++ rest)).length < 2 := by simp; omega
  simp only [DetectPacket, List.cons_append, if_neg hlen, Uvarint, List.drop_succ_cons,
    List.drop_zero, List.headD_cons, hval]
  simp only [Nat.cast_zero, zero_add, pow_zero, one_mul]
  have hn : ¬ ((vs.length : Int) ≤ 0) := by omega
  rw [if_neg hn]
  rw [toInt64_of_lt (varintValue vs : Int) (by omega) (by rw [h63]; omega)]
  rw [toInt64_of_lt _ (by omega) (by rw [h63]; omega)]
  push_cast
  rfl

/-- C7. Boundary tolerance: on a buffer of fewer than 2 bytes, and on a buffer whose
bytes from index 1 to the end all have the continuation bit `0x80` set, `DetectPacket`
returns length 0 and type 0. -/
theorem DetectPacket_boundary_tolerance (src : List Nat)
    (h : src.length < 2 ∨ ∀ b ∈ src.drop 1, b &&& 0x80 ≠ 0) :
    DetectPacket src = (0, 0) := by
  unfold DetectPacket
  by_cases hlen : src.length < 2
  · rw [if_pos hlen]
  · rw [if_neg hlen]
    rcases h with h | h
    · exact absurd h hlen
    · have hle : (Uvarint (src.drop 1)).2 ≤ 0 := by
        apply uvarintLoop_continuation _ 0 0 0 (by omega)
        intro j hj _
        exact continuation_bit_ge _ (h _ (List.getElem_mem _))
      simp only [hle, if_true]

/-- C7 at a varint that the buffer cuts off after two continuation bytes. -/
theorem DetectPacket_boundary_tolerance_witness :
    (∀ b ∈ ([0x30, 0x80, 0xff] : List Nat).drop 1, b &&& 0x80 ≠ 0) ∧
      DetectPacket [0x30, 0x80, 0xff] = (0, 0) :=
  ⟨by decide, DetectPacket_boundary_tolerance [0x30, 0x80, 0xff] (Or.inr (by decide))⟩

/-- C8. When the bytes from index 1 begin with a complete remaining-length varint `vs`
of `k` bytes, `1 ≤ k ≤ 4`, `DetectPacket` returns the length `1 + k + rl`, where `rl`
is the value `vs` encodes, and the type `src[0] >> 4`, whatever bytes `rest` follow
the varint. -/
theorem DetectPacket_length_and_type (b0 : Nat) (vs rest : List Nat)
    (hv : isVarint vs = true) (hk : vs.length ≤ 4) :
    1 ≤ vs.length ∧
      DetectPacket (b0 :: vs ++ rest)
        = (((1 + vs.length + varintValue vs : Nat) : Int), b0 >>> 4) := by
  refine ⟨?_, DetectPacket_header b0 vs rest hv (by omega)⟩
  cases vs with
  | nil => simp [isVarint] at hv
  | cons b tl => simp

/-- C8 at a two-byte varint encoding 321 behind a PUBLISH type byte. -/
theorem DetectPacket_length_and_type_witness :
    isVarint [0xc1, 0x02] = true ∧
      DetectPacket (0x3b :: [0xc1, 0x02] ++ [7, 7, 7]) = (324, 3) :=
  ⟨by decide, (DetectPacket_length_and_type 0x3b [0xc1, 0x02] [7, 7, 7] (by decide)
    (by decide)).2⟩

/-- C6, as stated, fails: on `[0x30, 5]` a length of 7 is reported although the buffer
holds 2 bytes. -/
theorem DetectPacket_reports_incomplete_packet :
    0 < (DetectPacket [0x30, 5]).1 ∧
      ¬ (DetectPacket [0x30, 5]).1 ≤ (([0x30, 5] : List Nat).length : Int) := by
  decide

/-- C6, amended. A positive length is reported as soon as the buffer holds a complete
fixed header, not a complete packet: when the reported length is positive, `src` is a
first byte followed by a complete varint `vs` of at most 10 bytes, so
`1 + k ≤ len(src)`, and for a varint of at most 8 bytes the reported length is
`1 + k + rl`, which may exceed `len(src)`.  When `src` holds no complete fixed header
(no first byte followed by a complete varint of at most 10 bytes), the result is
length 0 and type 0. -/
theorem DetectPacket_positive_header_complete (src : List Nat) :
    (0 < (DetectPacket src).1 →
      ∃ b0 vs rest, src = b0 :: vs ++ rest ∧ isVarint vs = true ∧ vs.length ≤ 10 ∧
        1 + vs.length ≤ src.length ∧
        (vs.length ≤ 8 →
          (DetectPacket src).1 = ((1 + vs.length + varintValue vs : Nat) : Int))) ∧
      ((¬ ∃ b0 vs rest, src = b0 :: vs ++ rest ∧ isVarint vs = true ∧ vs.length ≤ 10) →
        DetectPacket src = (0, 0)) := by
  -- a result other than `(0, 0)` comes from a varint that `Uvarint` has read completely
  have key : DetectPacket src ≠ (0, 0) →
      ∃ b0 vs rest, src = b0 :: vs ++ rest ∧ isVarint vs = true ∧ vs.length ≤ 10 := by
    intro hne
    cases src with
    | nil => exact absurd (by simp [DetectPacket]) hne
    | cons b0 tl =>
      have hpos : 0 < (Uvarint tl).2 := by
        by_contra hn
        have hle : (Uvarint (List.drop 1 (b0 :: tl))).2 ≤ 0 := by simpa using hn
        apply hne
        unfold DetectPacket
        by_cases h1 : (b0 :: tl).length < 2
        · rw [if_pos h1]
        · simp only [if_neg h1, hle, if_true]
      obtain ⟨vs, rest, htl, hvs, _, hle⟩ := uvarintLoop_pos tl 0 0 0 (by omega) hpos
      exact ⟨b0, vs, rest, by simp [htl], hvs, by omega⟩
  constructor
  · intro h
    have hne : DetectPacket src ≠ (0, 0) := by
      intro h0; rw [h0] at h; simp at h
    obtain ⟨b0, vs, rest, rfl, hvs, hle⟩ := key hne
    refine ⟨b0, vs, rest, rfl, hvs, hle, by simp; omega, ?_⟩
    intro h8
    rw [DetectPacket_header b0 vs rest hvs h8]
  · intro hno
    by_contra hne
    exact hno (key hne)

/-- C6, amended, at `[0x30, 5]`, where the fixed header is complete and the packet is
not, and at `[0x30, 0x80]`, where the varint is not complete. -/
theorem DetectPacket_positive_header_complete_witness :
    (0 < (DetectPacket [0x30, 5]).1 ∧
      ∃ b0 vs rest, [0x30, 5] = b0 :: vs ++ rest ∧ isVarint vs = true ∧ vs.length ≤ 10 ∧
        1 + vs.length ≤ ([0x30, 5] : List Nat).length ∧
        (vs.length ≤ 8 →
          (DetectPacket [0x30, 5]).1 = ((1 + vs.length + varintValue vs : Nat) : Int))) ∧
      DetectPacket [0x30, 0x80] = (0, 0) :=
  ⟨⟨by decide, (DetectPacket_positive_header_complete [0x30, 5]).1 (by decide)⟩,
    (DetectPacket_positive_header_complete [0x30, 0x80]).2 (by
      rintro ⟨b0, vs, rest, hs, hv, _⟩
      match vs, hs, hv with
      | [], _, hv => simp [isVarint] at hv
      | [a], hs, hv =>
        simp only [List.cons_append, List.nil_append, List.cons.injEq] at hs
        obtain ⟨_, rfl, _⟩ := hs
        simp [isVarint] at hv
      | _ :: _ :: _, hs, _ =>
        have := congrArg List.length hs
        simp at this)⟩

/-- C9, as stated, fails: with the continuation bit set in `src[1..4]` and a fifth
varint byte `0x01`, a packet is detected, with remaining length 268,435,456. -/
theorem DetectPacket_accepts_five_byte_varint :
    (∀ j < 4, ([0x30, 0x80, 0x80, 0x80, 0x80, 0x01] : List Nat).getD (j + 1) 0 &&& 0x80 ≠ 0) ∧
      DetectPacket [0x30, 0x80, 0x80, 0x80, 0x80, 0x01] = (268435462, 3) ∧
      (Uvarint [0x80, 0x80, 0x80, 0x80, 0x01]).1 = 268435456 := by
  decide

/-- C9, amended. Boundary detection limits the varint to 10 bytes: when `src[1]` to
`src[10]` all have the continuation bit set, `DetectPacket` returns length 0 and
type 0. -/
theorem DetectPacket_ten_byte_limit (src : List Nat)
    (h : ∀ j < 10, src.getD (j + 1) 0 &&& 0x80 ≠ 0) :
    DetectPacket src = (0, 0) := by
  unfold DetectPacket
  by_cases hlen : src.length < 2
  · rw [if_pos hlen]
  · rw [if_neg hlen]
    have hle : (Uvarint (src.drop 1)).2 ≤ 0 := by
      apply uvarintLoop_continuation _ 0 0 0 (by omega)
      intro j hj hj10
      have hj1 : j + 1 < src.length := by simp at hj; omega
      have := h j (by omega)
      rw [List.getD_eq_getElem _ _ hj1] at this
      rw [List.getElem_drop]
      have h2 : src[1 + j] = src[j + 1] := by congr 1; omega
      rw [h2]
      exact continuation_bit_ge _ this
    simp only [hle, if_true]

/-- C9, amended, at ten continuation bytes followed by a terminating byte. -/
theorem DetectPacket_ten_byte_limit_witness :
    (∀ j < 10, ([0x30, 0x80, 0x80, 0x80, 0x80, 0x80, 0x80, 0x80, 0x80, 0x80, 0x80, 0x01] :
        List Nat).getD (j + 1) 0 &&& 0x80 ≠ 0) ∧
      DetectPacket [0x30, 0x80, 0x80, 0x80, 0x80, 0x80, 0x80, 0x80, 0x80, 0x80, 0x80, 0x01]
        = (0, 0) :=
  ⟨by decide, DetectPacket_ten_byte_limit _ (by decide)⟩



theorem sliceFrom_append_left (a b : List Nat) (n : Nat) (h : n = a.length) :
    sliceFrom (a ++ b) n = some b := by
  subst h
  simp [sliceFrom]

theorem take_append_left (a b : List Nat) (n : Nat) (h : n = a.length) :
    (a ++ b).take n = a := by
  subst h
  simp

theorem copy_ok (dst src : List Nat) (h : src.length ≤ dst.length) :
    copy dst src = src ++ dst.drop src.length := by
  simp [copy, List.take_of_length_le h]

theorem PutUint16_ok (b : List Nat) (v : Nat) (h : 2 ≤ b.length) :
    PutUint16 b v = some ((v >>> 8) % 256 :: v % 256 :: b.drop 2) := by
  match b, h with
  | _ :: _ :: rest, _ => simp [PutUint16]

theorem remainingLengthEncode_some (rl : Nat) (h : rl ≤ 268435455) :
    ∃ vs, remainingLengthEncode rl = some vs ∧ 1 + vs.length = headerLen rl ∧
      isVarint vs = true ∧ varintValue vs = rl ∧ ∀ b ∈ vs, b < 256 := by
  unfold remainingLengthEncode headerLen
  split_ifs with h1 h2 h3
  · refine ⟨_, rfl, rfl, ?_, ?_, ?_⟩
    · simp [isVarint]; omega
    · simp [varintValue]; omega
    · simp; omega
  · refine ⟨_, rfl, rfl, ?_, ?_, ?_⟩
    · simp [isVarint]; omega
    · simp [varintValue]; omega
    · simp; omega
  · refine ⟨_, rfl, rfl, ?_, ?_, ?_⟩
    · simp [isVarint]; omega
    · simp [varintValue]; omega
    · simp; omega
  · refine ⟨_, rfl, rfl, ?_, ?_, ?_⟩
    · simp [isVarint]; omega
    · simp [varintValue]; omega
    · simp; omega

theorem headerEncode_ok (dst : List Nat) (flags rl tl t : Nat) (vs : List Nat)
    (hvs : remainingLengthEncode rl = some vs) (htl : tl ≤ dst.length)
    (hh : 1 + vs.length ≤ dst.length) :
    headerEncode dst flags rl tl t
      = Result.ok (1 + vs.length)
          ((((t <<< 4) ||| flags) % 256) :: vs ++ dst.drop (1 + vs.length)) := by
  have h1 : ¬ dst.length < tl := by omega
  have h2 : ¬ dst.length < 1 + vs.length := by omega
  simp only [headerEncode, if_neg h1, hvs, if_neg h2]

theorem writeLPBytes_ok (buf b : List Nat) (hb : b.length ≤ 65535)
    (hbuf : 2 + b.length ≤ buf.length) :
    writeLPBytes buf b
      = Result.ok (2 + b.length)
          ((b.length >>> 8) % 256 :: b.length % 256 :: (b ++ buf.drop (2 + b.length))) := by
  have h1 : ¬ 65535 < b.length := by omega
  have h2 : ¬ buf.length < 2 + b.length := by omega
  simp only [writeLPBytes, if_neg h1, if_neg h2, PutUint16_ok buf b.length (by omega)]
  have h3 : b.length ≤ (buf.drop 2).length := by simp; omega
  simp [copy_ok _ _ h3, Nat.add_comm]

theorem Encode_firstByte (dup retain : Bool) (qos : Nat) (hq : validQOS qos = true) :
    ((PUBLISH <<< 4) |||
      (((if retain then (if dup then 0 ||| 0x8 else 0 &&& 247) ||| 0x1
          else (if dup then 0 ||| 0x8 else 0 &&& 247) &&& 254) &&& 249) |||
        ((qos <<< 1) % 256))) % 256
      = (PUBLISH <<< 4) ||| (if dup then 8 else 0) ||| (qos <<< 1) |||
          (if retain then 1 else 0) := by
  have hq3 : qos = 0 ∨ qos = 1 ∨ qos = 2 := by
    simp only [validQOS, Bool.or_eq_true, decide_eq_true_eq] at hq; omega
  rcases hq3 with rfl | rfl | rfl <;> cases dup <;> cases retain <;> decide

theorem encodePayload_ok (p : PublishPacket) (a b : List Nat) (total : Nat)
    (h : total = a.length) (hb : p.Payload.length ≤ b.length) :
    p.encodePayload (a ++ b) total
      = Result.ok (total + p.Payload.length) (a ++ (p.Payload ++ b.drop p.Payload.length)) := by
  unfold PublishPacket.encodePayload
  rw [sliceFrom_append_left a b total h, take_append_left a b total h]
  simp only [copy_ok _ _ hb]

theorem shiftRight_8_mod (v : Nat) (h : v < 65536) : (v >>> 8) % 256 = v / 256 := by
  rw [Nat.shiftRight_eq_div_pow]
  apply Nat.mod_eq_of_lt
  norm_num
  omega

theorem remainingLengthEncode_length (rl : Nat) (vs : List Nat)
    (h : remainingLengthEncode rl = some vs) :
    1 + vs.length = headerLen rl ∧ rl ≤ 268435455 := by
  unfold remainingLengthEncode at h
  unfold headerLen
  split_ifs at h ⊢ <;> simp at h <;> subst h <;> simp <;> omega

/-- What `Encode` writes on success, in the terms of the code: the first `Len()`
bytes of `dst` are replaced, the rest is left as it was. -/
theorem PublishPacket.Encode_raw (p : PublishPacket) (dst vs : List Nat)
    (ht : p.Topic ≠ []) (ht2 : p.Topic.length ≤ 65535) (hq : validQOS p.QOS = true)
    (hvs : remainingLengthEncode p.len = some vs) (hdst : p.Len ≤ dst.length) :
    p.Encode dst = Result.ok p.Len
      (publishFirstByte p :: vs ++ [p.Topic.length / 256, p.Topic.length % 256] ++ p.Topic
        ++ (if p.QOS ≠ 0 then [(p.PacketID >>> 8) % 256, p.PacketID % 256] else [])
        ++ p.Payload ++ dst.drop p.Len) := by
  have hh := (remainingLengthEncode_length _ _ hvs).1
  have ht0 : ¬ p.Topic.length = 0 := by simpa using ht
  have hLen : p.Len = 1 + vs.length + p.len := by simp [PublishPacket.Len, hh]
  have hlen : p.len = 2 + p.Topic.length + p.Payload.length + (if p.QOS ≠ 0 then 2 else 0) := by
    simp only [PublishPacket.len]; split_ifs <;> omega
  unfold PublishPacket.Encode
  simp only [if_neg ht0, hq, Bool.not_true, Bool.false_eq_true, if_false]
  rw [headerEncode_ok dst _ p.len p.Len PUBLISH vs hvs hdst (by omega)]
  simp only []
  rw [Encode_firstByte p.Dup p.Retain p.QOS hq]
  change (match sliceFrom ((publishFirstByte p :: vs) ++ _) _ with
    | none => _ | some s => _) = _
  rw [sliceFrom_append_left _ _ _ (by simp; omega)]
  simp only []
  rw [writeLPBytes_ok _ _ ht2 (by simp; omega)]
  simp only []
  rw [take_append_left _ _ _ (by simp; omega)]
  have hD : List.drop (2 + p.Topic.length) (List.drop (1 + vs.length) dst)
      = dst.drop (1 + vs.length + (2 + p.Topic.length)) := by
    rw [List.drop_drop]
  rw [hD, shiftRight_8_mod _ (by omega)]
  have e : ∀ D : List Nat, (publishFirstByte p :: vs) ++
      p.Topic.length / 256 :: p.Topic.length % 256 :: (p.Topic ++ D)
      = ((publishFirstByte p :: vs) ++ [p.Topic.length / 256, p.Topic.length % 256]
          ++ p.Topic) ++ D := by
    intro D; simp
  change (if p.QOS ≠ 0 then
      match (sliceFrom ((publishFirstByte p :: vs) ++ _) _).bind _ with
      | none => _
      | some s3 => p.encodePayload (List.take _ ((publishFirstByte p :: vs) ++ _) ++ s3) _
    else p.encodePayload ((publishFirstByte p :: vs) ++ _) _) = _
  rw [e]
  have hdrop : ∀ n, n = p.Len → List.drop n dst = List.drop p.Len dst := by
    intro n h; rw [h]
  by_cases hq0 : p.QOS = 0
  · rw [if_neg (by simpa using hq0)]
    rw [encodePayload_ok p _ _ _ (by simp; omega) (by simp; rw [hq0] at hlen; simp at hlen; omega)]
    rw [hq0] at hlen
    simp only [ne_eq, not_true_eq_false, if_false, Nat.add_zero] at hlen
    rw [List.drop_drop]
    have e1 : 1 + vs.length + (2 + p.Topic.length) + p.Payload.length = p.Len := by omega
    rw [e1, hdrop _ (by omega)]
    simp [hq0]
  · rw [if_pos hq0]
    rw [if_pos hq0] at hlen
    rw [sliceFrom_append_left _ _ _ (by simp; omega), take_append_left _ _ _ (by simp; omega)]
    simp only [Option.some_bind]
    rw [PutUint16_ok _ _ (by simp; omega)]
    simp only []
    have e3 : ∀ (A D : List Nat) (x y : Nat), A ++ x :: y :: D = (A ++ [x, y]) ++ D := by
      intro A D x y; simp
    rw [e3]
    rw [encodePayload_ok p _ _ _ (by simp; omega) (by simp; omega)]
    rw [List.drop_drop, List.drop_drop]
    have e1 : 1 + vs.length + (2 + p.Topic.length) + 2 + p.Payload.length = p.Len := by omega
    rw [e1, hdrop _ (by omega)]
    simp [hq0]

/-- On a packet whose identifier fits 16 bits a successful `Encode` writes the wire
image the spec describes. -/
theorem PublishPacket.Encode_eq (p : PublishPacket) (dst vs : List Nat)
    (ht : p.Topic ≠ []) (ht2 : p.Topic.length ≤ 65535) (hq : validQOS p.QOS = true)
    (hid : p.PacketID < 65536)
    (hvs : remainingLengthEncode p.len = some vs) (hdst : p.Len ≤ dst.length) :
    p.Encode dst = Result.ok p.Len (publishWire p vs ++ dst.drop p.Len) := by
  rw [PublishPacket.Encode_raw p dst vs ht ht2 hq hvs hdst, shiftRight_8_mod _ hid]
  rfl

/-- A successful `Encode` was given a non-empty topic of at most 65535 bytes, a valid
QoS, a remaining length that fits 4 varint bytes and a destination of at least `Len()`
bytes. -/
theorem PublishPacket.Encode_ok_inv (p : PublishPacket) (dst : List Nat) (n : Nat)
    (d : List Nat) (h : p.Encode dst = Result.ok n d) :
    p.Topic ≠ [] ∧ p.Topic.length ≤ 65535 ∧ validQOS p.QOS = true ∧
      p.Len ≤ dst.length ∧ ∃ vs, remainingLengthEncode p.len = some vs := by
  have ht : p.Topic ≠ [] := by
    intro ht; simp [PublishPacket.Encode, ht] at h
  have ht0 : ¬ p.Topic.length = 0 := by simpa using ht
  have hq : validQOS p.QOS = true := by
    by_contra hq; simp [PublishPacket.Encode, ht, hq] at h
  have hdst : p.Len ≤ dst.length := by
    by_contra hd
    have hd2 : dst.length < p.Len := by omega
    simp [PublishPacket.Encode, ht, hq, headerEncode, hd2] at h
  have hvs : ∃ vs, remainingLengthEncode p.len = some vs := by
    cases hrl : remainingLengthEncode p.len with
    | none =>
      have hd2 : ¬ dst.length < p.Len := by omega
      simp [PublishPacket.Encode, ht, hq, headerEncode, hd2, hrl] at h
    | some vs => exact ⟨vs, rfl⟩
  obtain ⟨vs, hvs⟩ := hvs
  refine ⟨ht, ?_, hq, hdst, vs, hvs⟩
  by_contra hlt
  have hlt2 : 65535 < p.Topic.length := by omega
  have hh := (remainingLengthEncode_length _ _ hvs).1
  have hLen : p.Len = 1 + vs.length + p.len := by simp [PublishPacket.Len, hh]
  unfold PublishPacket.Encode at h
  simp only [if_neg ht0, hq, Bool.not_true, Bool.false_eq_true, if_false] at h
  rw [headerEncode_ok dst _ p.len p.Len PUBLISH vs hvs hdst (by omega)] at h
  simp only [] at h
  rw [sliceFrom_append_left _ _ _ (by simp; omega)] at h
  simp [writeLPBytes, hlt2] at h

theorem PublishPacket.len_eq (p : PublishPacket) : p.len = publishRemainingLength p := by
  simp only [PublishPacket.len, publishRemainingLength]; split_ifs <;> omega

theorem validQOS_of_le (qos : Nat) (h : qos ≤ 2) : validQOS qos = true := by
  have : qos = 0 ∨ qos = 1 ∨ qos = 2 := by omega
  rcases this with rfl | rfl | rfl <;> rfl

theorem publishWire_length (p : PublishPacket) (vs : List Nat)
    (hvs : remainingLengthEncode p.len = some vs) : (publishWire p vs).length = p.Len := by
  have hh := (remainingLengthEncode_length _ _ hvs).1
  have hlen := p.len_eq
  simp only [publishRemainingLength] at hlen
  simp only [PublishPacket.Len, ← hh, publishWire, List.length_append, List.length_cons,
    List.length_nil]
  split_ifs at hlen ⊢ <;> simp <;> omega

/-! ## PUBLISH: encoding -/

/-- C2. Whenever `Encode` returns no error, the number of bytes it reports as written
equals `Len()`. -/
theorem PublishPacket.Encode_count_eq_Len (p : PublishPacket) (dst : List Nat) (n : Nat)
    (d : List Nat) (h : p.Encode dst = Result.ok n d) : n = p.Len := by
  obtain ⟨ht, ht2, hq, hdst, vs, hvs⟩ := PublishPacket.Encode_ok_inv p dst n d h
  rw [PublishPacket.Encode_raw p dst vs ht ht2 hq hvs hdst] at h
  injection h with h1 _
  exact h1.symm

/-- C2 at the packet of `TestPublishPacketEncode1`, encoded into a buffer of 27 bytes:
25 bytes are written. -/
theorem PublishPacket.Encode_count_eq_Len_witness :
    (25 : Nat) = PublishPacket.Len
      { Topic := [115, 117, 114, 103, 101, 109, 113],
        Payload := [115, 101, 110, 100, 32, 109, 101, 32, 104, 111, 109, 101],
        QOS := 1, Retain := true, Dup := true, PacketID := 7 } :=
  PublishPacket.Encode_count_eq_Len
    { Topic := [115, 117, 114, 103, 101, 109, 113],
      Payload := [115, 101, 110, 100, 32, 109, 101, 32, 104, 111, 109, 101],
      QOS := 1, Retain := true, Dup := true, PacketID := 7 }
    (List.replicate 27 0) 25
    [0x3b, 23, 0, 7, 115, 117, 114, 103, 101, 109, 113, 0, 7,
      115, 101, 110, 100, 32, 109, 101, 32, 104, 111, 109, 101, 0, 0]
    (by decide)

/-- C3. PUBLISH wire layout with QoS gating: for a valid packet and a destination of at
least `Len()` bytes, `Encode` succeeds and writes exactly `Len()` bytes: the first byte
`(PUBLISH<<4) | (Dup ? 8 : 0) | (QOS<<1) | (Retain ? 1 : 0)`, the remaining-length
varint of `2 + len(Topic) + len(Payload) + (2 if QOS != 0 else 0)`, the 2-byte
big-endian topic length, the topic, the 2-byte big-endian identifier if and only if
`QOS != 0`, and the payload; the bytes of `dst` behind them are left as they were. -/
theorem PublishPacket.Encode_wire_layout (p : PublishPacket) (dst : List Nat)
    (ht : p.Topic ≠ []) (ht2 : p.Topic.length ≤ 65535) (hq : p.QOS ≤ 2)
    (hid : p.PacketID < 65536) (hrl : publishRemainingLength p ≤ 268435455)
    (hdst : p.Len ≤ dst.length) :
    ∃ vs, remainingLengthEncode (publishRemainingLength p) = some vs ∧
      isVarint vs = true ∧ varintValue vs = publishRemainingLength p ∧
      (publishWire p vs).length = p.Len ∧
      p.Encode dst = Result.ok p.Len (publishWire p vs ++ dst.drop p.Len) := by
  obtain ⟨vs, hvs, _, hv, hval, _⟩ := remainingLengthEncode_some _ hrl
  have hvs2 : remainingLengthEncode p.len = some vs := by rw [p.len_eq]; exact hvs
  exact ⟨vs, hvs, hv, hval, publishWire_length p vs hvs2,
    PublishPacket.Encode_eq p dst vs ht ht2 (validQOS_of_le _ hq) hid hvs2 hdst⟩

/-- C3 at the packet of `TestPublishPacketEncode1` and a destination of 27 bytes. -/
theorem PublishPacket.Encode_wire_layout_witness :
    ∃ vs, remainingLengthEncode 23 = some vs ∧
      isVarint vs = true ∧ varintValue vs = 23 ∧
      (publishWire
        { Topic := [115, 117, 114, 103, 101, 109, 113],
          Payload := [115, 101, 110, 100, 32, 109, 101, 32, 104, 111, 109, 101],
          QOS := 1, Retain := true, Dup := true, PacketID := 7 } vs).length = 25 ∧
      PublishPacket.Encode
        { Topic := [115, 117, 114, 103, 101, 109, 113],
          Payload := [115, 101, 110, 100, 32, 109, 101, 32, 104, 111, 109, 101],
          QOS := 1, Retain := true, Dup := true, PacketID := 7 } (List.replicate 27 9)
        = Result.ok 25
            (publishWire
              { Topic := [115, 117, 114, 103, 101, 109, 113],
                Payload := [115, 101, 110, 100, 32, 109, 101, 32, 104, 111, 109, 101],
                QOS := 1, Retain := true, Dup := true, PacketID := 7 } vs ++ [9, 9]) :=
  PublishPacket.Encode_wire_layout
    { Topic := [115, 117, 114, 103, 101, 109, 113],
      Payload := [115, 101, 110, 100, 32, 109, 101, 32, 104, 111, 109, 101],
      QOS := 1, Retain := true, Dup := true, PacketID := 7 } (List.replicate 27 9)
    (by decide) (by decide) (by decide) (by decide) (by decide) (by decide)

/-! ## PUBLISH: decoding -/

theorem remainingLengthDecode_of_isVarint (vs : List Nat) :
    ∀ (rest : List Nat) (k : Nat), isVarint vs = true → vs.length ≤ k →
      remainingLengthDecode k (vs ++ rest) = some (varintValue vs, vs.length) := by
  induction vs with
  | nil => intro rest k h; simp [isVarint] at h
  | cons b tl ih =>
    intro rest k hv hk
    cases k with
    | zero => simp at hk
    | succ k =>
      cases tl with
      | nil =>
        simp only [isVarint_singleton, decide_eq_true_eq] at hv
        simp [remainingLengthDecode, hv, varintValue, Nat.mod_eq_of_lt hv]
      | cons c cs =>
        simp only [isVarint_cons_cons, Bool.and_eq_true, decide_eq_true_eq] at hv
        have hnb : ¬ b < 128 := by omega
        have := ih rest k hv.2 (by simp at hk ⊢; omega)
        rw [List.cons_append, remainingLengthDecode, if_neg hnb, this]
        simp [varintValue]

theorem headerDecode_ok (b0 : Nat) (vs rest : List Nat) (t : Nat)
    (h1 : 1 ≤ b0 >>> 4) (h2 : b0 >>> 4 ≤ 14) (hv : isVarint vs = true)
    (hk : vs.length ≤ 4) :
    headerDecode (b0 :: vs ++ rest) t
      = Result.ok (1 + vs.length) (b0 &&& 0x0f, varintValue vs) := by
  have ht : ¬ (b0 >>> 4 = 0 ∨ 15 ≤ b0 >>> 4) := by omega
  simp only [headerDecode, List.cons_append, if_neg ht,
    remainingLengthDecode_of_isVarint vs rest 4 hv hk]

theorem Uint16_eq (hi lo : Nat) (rest : List Nat) (hlo : lo < 256) :
    Uint16 (hi :: lo :: rest) = some (hi * 256 + lo) := by
  simp only [Uint16]
  rw [or_shiftLeft_eq_add lo hi 8 (by norm_num; omega)]
  norm_num
  omega

theorem readLPBytes_ok (hi lo : Nat) (topic rest : List Nat) (hlo : lo < 256)
    (hlen : topic.length = hi * 256 + lo) :
    readLPBytes (hi :: lo :: (topic ++ rest)) = Result.ok (2 + topic.length) topic := by
  have h : ¬ (hi :: lo :: (topic ++ rest)).length - 2 < hi * 256 + lo := by
    simp; omega
  simp only [readLPBytes, Uint16_eq hi lo _ hlo, if_neg h]
  simp [← hlen]

theorem slice_mid (a b c : List Nat) (i j : Nat) (hi : i = a.length)
    (hj : j = a.length + b.length) : slice (a ++ (b ++ c)) i j = some b := by
  subst hi hj
  simp [slice]

theorem decodePayload_ok (pm : PublishPacket) (a payload tail : List Nat)
    (total hl rl : Nat) (ht : total = a.length) (hhl : hl ≤ total)
    (hrl : rl = total - hl + payload.length) :
    PublishPacket.decodePayload pm (a ++ (payload ++ tail)) total hl rl
      = Result.ok (total + payload.length)
          { pm with Payload := if payload = [] then pm.Payload else payload } := by
  unfold PublishPacket.decodePayload
  have hl0 : ((rl : Int) - ((total : Int) - (hl : Int))) = (payload.length : Int) := by
    omega
  simp only [hl0]
  cases payload with
  | nil => simp
  | cons x xs =>
    have hpos : ((x :: xs).length : Int) > 0 := by simp
    rw [if_pos hpos, Int.toNat_ofNat, slice_mid a (x :: xs) tail total _ ht (by omega)]
    simp

/-- `Decode` on a well-formed QoS 0 image: header, topic, payload; bytes behind the
declared remaining length are not consumed.  The identifier of the receiver is left
as it was, and so is its payload when the decoded payload is empty. -/
theorem PublishPacket.Decode_ok_qos0 (q : PublishPacket) (b0 hi lo : Nat)
    (vs topic payload tail : List Nat)
    (h1 : 1 ≤ b0 >>> 4) (h2 : b0 >>> 4 ≤ 14) (hv : isVarint vs = true) (hk : vs.length ≤ 4)
    (hq : ((b0 &&& 0x0f) >>> 1) &&& 0x3 = 0)
    (hlo : lo < 256) (hlen : topic.length = hi * 256 + lo)
    (hrl : varintValue vs = 2 + topic.length + payload.length) :
    q.Decode ((b0 :: vs) ++ (hi :: lo :: (topic ++ (payload ++ tail))))
      = Result.ok (1 + vs.length + varintValue vs)
          { Topic := topic
            Payload := if payload = [] then q.Payload else payload
            QOS := 0
            Retain := ((b0 &&& 0x0f) &&& 0x1) == 1
            Dup := (((b0 &&& 0x0f) >>> 3) &&& 0x1) == 1
            PacketID := q.PacketID } := by
  unfold PublishPacket.Decode
  rw [headerDecode_ok b0 vs _ PUBLISH h1 h2 hv hk]
  simp only [hq]
  have hl2 : ¬ ((b0 :: vs) ++ (hi :: lo :: (topic ++ (payload ++ tail)))).length
      < 1 + vs.length + 2 := by simp; omega
  rw [if_neg (by decide), if_neg hl2, sliceFrom_append_left _ _ _ (by simp; omega)]
  simp only []
  rw [readLPBytes_ok hi lo topic _ hlo hlen]
  simp only [ne_eq, not_true_eq_false, if_false]
  have e : (b0 :: vs) ++ (hi :: lo :: (topic ++ (payload ++ tail)))
      = ((b0 :: vs) ++ [hi, lo] ++ topic) ++ (payload ++ tail) := by simp
  rw [e, decodePayload_ok _ _ payload tail _ _ _ (by simp; omega) (by omega) (by omega)]
  congr 1
  omega

/-- `Decode` on a well-formed QoS 1 or 2 image: header, topic, identifier, payload. -/
theorem PublishPacket.Decode_ok_qos12 (q : PublishPacket) (b0 hi lo ihi ilo : Nat)
    (vs topic payload tail : List Nat)
    (h1 : 1 ≤ b0 >>> 4) (h2 : b0 >>> 4 ≤ 14) (hv : isVarint vs = true) (hk : vs.length ≤ 4)
    (hq : ((b0 &&& 0x0f) >>> 1) &&& 0x3 ≠ 0) (hq2 : ((b0 &&& 0x0f) >>> 1) &&& 0x3 ≤ 2)
    (hlo : lo < 256) (hlen : topic.length = hi * 256 + lo) (hilo : ilo < 256)
    (hrl : varintValue vs = 2 + topic.length + 2 + payload.length) :
    q.Decode ((b0 :: vs) ++ (hi :: lo :: (topic ++ (ihi :: ilo :: (payload ++ tail)))))
      = Result.ok (1 + vs.length + varintValue vs)
          { Topic := topic
            Payload := if payload = [] then q.Payload else payload
            QOS := ((b0 &&& 0x0f) >>> 1) &&& 0x3
            Retain := ((b0 &&& 0x0f) &&& 0x1) == 1
            Dup := (((b0 &&& 0x0f) >>> 3) &&& 0x1) == 1
            PacketID := ihi * 256 + ilo } := by
  unfold PublishPacket.Decode
  rw [headerDecode_ok b0 vs _ PUBLISH h1 h2 hv hk]
  simp only [validQOS_of_le _ hq2]
  have hl2 : ¬ ((b0 :: vs) ++ (hi :: lo :: (topic ++ (ihi :: ilo :: (payload ++ tail))))).length
      < 1 + vs.length + 2 := by simp; omega
  rw [if_neg (by decide), if_neg hl2, sliceFrom_append_left _ _ _ (by simp; omega)]
  simp only []
  rw [readLPBytes_ok hi lo topic _ hlo hlen]
  simp only []
  have hl3 : ¬ ((b0 :: vs) ++ (hi :: lo :: (topic ++ (ihi :: ilo :: (payload ++ tail))))).length
      < 1 + vs.length + (2 + topic.length) + 2 := by simp; omega
  rw [if_pos hq, if_neg hl3]
  have e1 : (b0 :: vs) ++ (hi :: lo :: (topic ++ (ihi :: ilo :: (payload ++ tail))))
      = ((b0 :: vs) ++ [hi, lo] ++ topic) ++ (ihi :: ilo :: (payload ++ tail)) := by simp
  have e2 : (b0 :: vs) ++ (hi :: lo :: (topic ++ (ihi :: ilo :: (payload ++ tail))))
      = ((b0 :: vs) ++ [hi, lo] ++ topic ++ [ihi, ilo]) ++ (payload ++ tail) := by simp
  rw [e1, sliceFrom_append_left _ _ _ (by simp; omega)]
  simp only [Option.some_bind, Uint16_eq ihi ilo _ hilo]
  rw [← e1, e2, decodePayload_ok _ _ payload tail _ _ _ (by simp; omega) (by omega) (by omega)]
  congr 1
  omega

theorem firstByte_decode (dup retain : Bool) (qos : Nat) (hq : qos ≤ 2) :
    ((PUBLISH <<< 4) ||| (if dup then 8 else 0) ||| (qos <<< 1) |||
        (if retain then 1 else 0)) >>> 4 = PUBLISH ∧
      ((((PUBLISH <<< 4) ||| (if dup then 8 else 0) ||| (qos <<< 1) |||
        (if retain then 1 else 0)) &&& 0x0f) >>> 1) &&& 0x3 = qos ∧
      (((((PUBLISH <<< 4) ||| (if dup then 8 else 0) ||| (qos <<< 1) |||
        (if retain then 1 else 0)) &&& 0x0f) &&& 0x1) == 1) = retain ∧
      ((((((PUBLISH <<< 4) ||| (if dup then 8 else 0) ||| (qos <<< 1) |||
        (if retain then 1 else 0)) &&& 0x0f) >>> 3) &&& 0x1) == 1) = dup := by
  have hq3 : qos = 0 ∨ qos = 1 ∨ qos = 2 := by omega
  rcases hq3 with rfl | rfl | rfl <;> cases dup <;> cases retain <;> decide

theorem publishFirstByte_decode (p : PublishPacket) (hq : p.QOS ≤ 2) :
    publishFirstByte p >>> 4 = PUBLISH ∧
      ((publishFirstByte p &&& 0x0f) >>> 1) &&& 0x3 = p.QOS ∧
      (((publishFirstByte p &&& 0x0f) &&& 0x1) == 1) = p.Retain ∧
      ((((publishFirstByte p &&& 0x0f) >>> 3) &&& 0x1) == 1) = p.Dup :=
  firstByte_decode p.Dup p.Retain p.QOS hq

/-- Decoding the wire image of a valid packet, followed by any bytes `tail`, into a
receiver `q`: every field is the one of `p`, except that a QoS 0 image leaves the
identifier of `q` in place and an empty payload leaves the payload of `q` in place. -/
theorem PublishPacket.Decode_publishWire (q p : PublishPacket) (vs tail : List Nat)
    (ht2 : p.Topic.length ≤ 65535) (hq : p.QOS ≤ 2) (hid : p.PacketID < 65536)
    (hvs : remainingLengthEncode p.len = some vs) :
    q.Decode (publishWire p vs ++ tail)
      = Result.ok p.Len
          { p with
            Payload := if p.Payload = [] then q.Payload else p.Payload
            PacketID := if p.QOS ≠ 0 then p.PacketID else q.PacketID } := by
  obtain ⟨hh, hmax⟩ := remainingLengthEncode_length _ _ hvs
  obtain ⟨vs', hvs', _, hv, hval, _⟩ := remainingLengthEncode_some _ hmax
  have hvv : vs' = vs := by rw [hvs] at hvs'; injection hvs' with h; exact h.symm
  subst hvv
  obtain ⟨hty, hqos, hret, hdup⟩ := publishFirstByte_decode p hq
  have hk : vs'.length ≤ 4 := by
    have : headerLen p.len ≤ 5 := by unfold headerLen; split_ifs <;> omega
    omega
  have hlen := p.len_eq
  have hLen : p.Len = 1 + vs'.length + varintValue vs' := by
    simp only [PublishPacket.Len, ← hh, hval]
  have hPU : PUBLISH = 3 := rfl
  by_cases hq0 : p.QOS = 0
  · have e : publishWire p vs' ++ tail
        = (publishFirstByte p :: vs') ++
            (p.Topic.length / 256 :: p.Topic.length % 256 :: (p.Topic ++ (p.Payload ++ tail))) := by
      simp [publishWire, hq0]
    rw [e, PublishPacket.Decode_ok_qos0 q _ _ _ vs' p.Topic p.Payload tail (by omega) (by omega)
      hv hk (by rw [hqos, hq0]) (Nat.mod_lt _ (by decide)) (by omega)
      (by rw [hval, hlen]; simp [publishRemainingLength, hq0])]
    rw [hret, hdup, ← hLen]
    obtain ⟨topic, payload, qos, retain, dup, id⟩ := p
    simp only at hq0
    subst hq0
    simp
  · have e : publishWire p vs' ++ tail
        = (publishFirstByte p :: vs') ++
            (p.Topic.length / 256 :: p.Topic.length % 256 ::
              (p.Topic ++ (p.PacketID / 256 :: p.PacketID % 256 :: (p.Payload ++ tail)))) := by
      simp [publishWire, hq0]
    rw [e, PublishPacket.Decode_ok_qos12 q _ _ _ _ _ vs' p.Topic p.Payload tail (by omega)
      (by omega) hv hk (by rw [hqos]; exact hq0) (by rw [hqos]; exact hq)
      (Nat.mod_lt _ (by decide)) (by omega) (Nat.mod_lt _ (by decide))
      (by rw [hval, hlen]; simp [publishRemainingLength, hq0]; omega)]
    rw [hret, hdup, hqos, ← hLen]
    have hidv : p.PacketID / 256 * 256 + p.PacketID % 256 = p.PacketID := by omega
    rw [hidv]
    obtain ⟨topic, payload, qos, retain, dup, id⟩ := p
    simp only at hq0
    simp [hq0]

/-- C1, as stated, fails: a QoS 0 packet with identifier 7 is valid, is encoded without
identifier bytes, and decodes to a packet whose `PacketID` is 0. -/
theorem PublishPacket.round_trip_loses_PacketID :
    PublishPacket.Encode
        { Topic := [116], Payload := [], QOS := 0, Retain := false, Dup := false, PacketID := 7 }
        (List.replicate 5 0) = Result.ok 5 [0x30, 3, 0, 1, 116] ∧
      PublishPacket.Len
        { Topic := [116], Payload := [], QOS := 0, Retain := false, Dup := false, PacketID := 7 }
        = 5 ∧
      NewPublishPacket.Decode [0x30, 3, 0, 1, 116] = Result.ok 5
        { Topic := [116], Payload := [], QOS := 0, Retain := false, Dup := false, PacketID := 0 } ∧
      ({ Topic := [116], Payload := [], QOS := 0, Retain := false, Dup := false, PacketID := 0 } :
          PublishPacket)
        ≠ { Topic := [116], Payload := [], QOS := 0, Retain := false, Dup := false, PacketID := 7 } := by
  decide

/-- C1, amended. PUBLISH round trip: for every valid packet `p` (non-empty topic of at
most 65535 bytes, QoS in {0,1,2}, 16-bit identifier, remaining length within the limit)
and a destination of `Len()` bytes, `Encode` succeeds with `Len()` bytes written, and
`Decode` of the written bytes into a fresh packet succeeds, consumes exactly these
bytes and yields Topic, Payload, QOS, Retain and Dup equal to those of `p`; PacketID is
equal to the one of `p` when `QOS != 0` and is 0 when `QOS = 0`. -/
theorem PublishPacket.round_trip (p : PublishPacket) (dst : List Nat)
    (ht : p.Topic ≠ []) (ht2 : p.Topic.length ≤ 65535) (hq : p.QOS ≤ 2)
    (hid : p.PacketID < 65536) (hrl : publishRemainingLength p ≤ 268435455)
    (hdst : dst.length = p.Len) :
    ∃ d, p.Encode dst = Result.ok p.Len d ∧ d.length = p.Len ∧
      NewPublishPacket.Decode d
        = Result.ok p.Len { p with PacketID := if p.QOS ≠ 0 then p.PacketID else 0 } := by
  obtain ⟨vs, hvs, _, _, _, _⟩ := remainingLengthEncode_some _ hrl
  rw [← p.len_eq] at hvs
  have hd : dst.drop p.Len = [] := List.drop_eq_nil_of_le (by omega)
  refine ⟨publishWire p vs ++ [], ?_, ?_, ?_⟩
  · rw [PublishPacket.Encode_eq p dst vs ht ht2 (validQOS_of_le _ hq) hid hvs (by omega), hd]
  · simp [publishWire_length p vs hvs]
  · rw [PublishPacket.Decode_publishWire NewPublishPacket p vs [] ht2 hq hid hvs]
    obtain ⟨topic, payload, qos, retain, dup, id⟩ := p
    cases payload <;> simp [NewPublishPacket]

/-- C1, amended, at the packet of `TestPublishPacketEncode1`. -/
theorem PublishPacket.round_trip_witness :
    ∃ d, PublishPacket.Encode
          { Topic := [115, 117, 114, 103, 101, 109, 113],
            Payload := [115, 101, 110, 100, 32, 109, 101, 32, 104, 111, 109, 101],
            QOS := 1, Retain := true, Dup := true, PacketID := 7 } (List.replicate 25 0)
          = Result.ok 25 d ∧ d.length = 25 ∧
      NewPublishPacket.Decode d
        = Result.ok 25
            { Topic := [115, 117, 114, 103, 101, 109, 113],
              Payload := [115, 101, 110, 100, 32, 109, 101, 32, 104, 111, 109, 101],
              QOS := 1, Retain := true, Dup := true, PacketID := 7 } :=
  PublishPacket.round_trip
    { Topic := [115, 117, 114, 103, 101, 109, 113],
      Payload := [115, 101, 110, 100, 32, 109, 101, 32, 104, 111, 109, 101],
      QOS := 1, Retain := true, Dup := true, PacketID := 7 } (List.replicate 25 0)
    (by decide) (by decide) (by decide) (by decide) (by decide) (by decide)

/-! ## PUBLISH: what a successful Decode has read -/

theorem remainingLengthDecode_inv (k : Nat) :
    ∀ (buf : List Nat) (v n : Nat), remainingLengthDecode k buf = some (v, n) →
      ∃ vs rest, buf = vs ++ rest ∧ isVarint vs = true ∧ vs.length = n ∧ n ≤ k ∧
        varintValue vs = v := by
  induction k with
  | zero => intro buf v n h; simp [remainingLengthDecode] at h
  | succ k ih =>
    intro buf v n h
    cases buf with
    | nil => simp [remainingLengthDecode] at h
    | cons b rest =>
      rw [remainingLengthDecode] at h
      by_cases hb : b < 128
      · rw [if_pos hb] at h
        simp only [Option.some.injEq, Prod.mk.injEq] at h
        obtain ⟨rfl, rfl⟩ := h
        exact ⟨[b], rest, rfl, by simp [isVarint_singleton, hb], rfl, by omega,
          by simp [varintValue, Nat.mod_eq_of_lt hb]⟩
      · rw [if_neg hb] at h
        cases hr : remainingLengthDecode k rest with
        | none => simp [hr] at h
        | some r =>
          obtain ⟨v1, n1⟩ := r
          simp only [hr, Option.some.injEq, Prod.mk.injEq] at h
          obtain ⟨rfl, rfl⟩ := h
          obtain ⟨vs, rest1, hbuf, hvs, hlen, hle, hval⟩ := ih rest v1 n1 hr
          refine ⟨b :: vs, rest1, by simp [hbuf], ?_, by simp [hlen], by omega, ?_⟩
          · cases vs with
            | nil => simp [isVarint] at hvs
            | cons c cs =>
              rw [isVarint_cons_cons]
              simp only [Bool.and_eq_true, decide_eq_true_eq]
              exact ⟨by omega, hvs⟩
          · simp [varintValue, hval]

theorem headerDecode_inv (src : List Nat) (t hl flags rl : Nat)
    (h : headerDecode src t = Result.ok hl (flags, rl)) :
    ∃ b0 vs rest, src = (b0 :: vs) ++ rest ∧ isVarint vs = true ∧ vs.length ≤ 4 ∧
      hl = 1 + vs.length ∧ rl = varintValue vs ∧ flags = b0 &&& 0x0f ∧
      1 ≤ b0 >>> 4 ∧ b0 >>> 4 ≤ 14 := by
  cases src with
  | nil => simp [headerDecode] at h
  | cons b0 rest0 =>
    simp only [headerDecode] at h
    by_cases hty : b0 >>> 4 = 0 ∨ 15 ≤ b0 >>> 4
    · rw [if_pos hty] at h; cases h
    · rw [if_neg hty] at h
      cases hr : remainingLengthDecode 4 rest0 with
      | none => simp [hr] at h
      | some r =>
        obtain ⟨v, n⟩ := r
        simp only [hr, Result.ok.injEq, Prod.mk.injEq] at h
        obtain ⟨rfl, rfl, rfl⟩ := h
        obtain ⟨vs, rest, hbuf, hvs, hn, hle, hval⟩ := remainingLengthDecode_inv 4 rest0 v n hr
        subst hbuf
        exact ⟨b0, vs, rest, by simp, hvs, by omega, by omega, hval.symm, rfl, by omega,
          by omega⟩

/-- A header that decodes on a buffer starting with the byte `b0` and the complete
varint `vs` is that byte and that varint. -/
theorem headerDecode_ok_header (b0 : Nat) (vs rest : List Nat) (t hl flags rl : Nat)
    (hv : isVarint vs = true)
    (hd : headerDecode ((b0 :: vs) ++ rest) t = Result.ok hl (flags, rl)) :
    hl = 1 + vs.length ∧ rl = varintValue vs ∧ flags = b0 &&& 0x0f ∧ vs.length ≤ 4 ∧
      1 ≤ b0 >>> 4 ∧ b0 >>> 4 ≤ 14 := by
  obtain ⟨c0, ws, r, hs, hw, hk, hhl, hrl, hfl, h1, h2⟩ := headerDecode_inv _ _ _ _ _ hd
  simp only [List.cons_append, List.cons.injEq] at hs
  obtain ⟨rfl, hs⟩ := hs
  obtain ⟨rfl, rfl⟩ := isVarint_append_unique vs ws rest r hv hw hs
  exact ⟨hhl, hrl, hfl, hk, h1, h2⟩

theorem readLPBytes_inv (buf : List Nat) (n : Nat) (topic : List Nat)
    (h : readLPBytes buf = Result.ok n topic) :
    ∃ hi lo rest, buf = hi :: lo :: (topic ++ rest) ∧ n = 2 + topic.length ∧
      topic.length = lo ||| (hi <<< 8) := by
  match buf, h with
  | [], h => simp [readLPBytes, Uint16] at h
  | [_], h => simp [readLPBytes, Uint16] at h
  | hi :: lo :: r, h =>
    simp only [readLPBytes, Uint16] at h
    by_cases hlen : (hi :: lo :: r).length - 2 < lo ||| (hi <<< 8)
    · rw [if_pos hlen] at h; cases h
    · rw [if_neg hlen] at h
      simp only [Result.ok.injEq] at h
      obtain ⟨rfl, rfl⟩ := h
      simp at hlen
      refine ⟨hi, lo, r.drop (lo ||| (hi <<< 8)), ?_, ?_, ?_⟩
      · simp
      · simp; omega
      · simp; omega

theorem decodePayload_inv (pm : PublishPacket) (src : List Nat) (total hl rl n : Nat)
    (p : PublishPacket) (htot : total ≤ src.length)
    (h : PublishPacket.decodePayload pm src total hl rl = Result.ok n p) :
    ∃ payload tail, src.drop total = payload ++ tail ∧ n = total + payload.length ∧
      p = { pm with Payload := if payload = [] then pm.Payload else payload } ∧
      (total ≤ hl + rl → total + payload.length = hl + rl) ∧
      (hl + rl < total → payload = []) := by
  unfold PublishPacket.decodePayload at h
  by_cases hl0 : ((rl : Int) - ((total : Int) - (hl : Int))) > 0
  · simp only [if_pos hl0] at h
    have hto : ((rl : Int) - ((total : Int) - (hl : Int))).toNat = hl + rl - total := by omega
    rw [hto] at h
    unfold slice at h
    by_cases hs : total ≤ total + (hl + rl - total) ∧ total + (hl + rl - total) ≤ src.length
    · rw [if_pos hs] at h
      simp only [Result.ok.injEq] at h
      obtain ⟨rfl, rfl⟩ := h
      have hlenp : (List.take (total + (hl + rl - total) - total) (List.drop total src)).length
          = hl + rl - total := by simp; omega
      refine ⟨_, (src.drop total).drop (total + (hl + rl - total) - total), ?_, rfl, ?_, ?_, ?_⟩
      · simp
      · have hne : List.take (total + (hl + rl - total) - total) (List.drop total src) ≠ [] := by
          intro he; rw [he] at hlenp; simp at hlenp; omega
        rw [if_neg hne]
      · intro _; rw [hlenp]; omega
      · intro hlt; omega
    · rw [if_neg hs] at h; cases h
  · simp only [if_neg hl0, Result.ok.injEq] at h
    obtain ⟨rfl, rfl⟩ := h
    refine ⟨[], src.drop total, by simp, by simp, by simp, ?_, ?_⟩
    · intro _; simp; omega
    · intro _; rfl

theorem validQOS_le (qos : Nat) (h : validQOS qos = true) : qos ≤ 2 := by
  simp only [validQOS, Bool.or_eq_true, decide_eq_true_eq] at h
  omega

/-- What a successful `Decode` has read: `src` is a type/flags byte `b0`, a complete
varint `vs` of at most 4 bytes, the two bytes `hi lo` of the topic length, the topic,
the identifier bytes `idb` (two for QoS 1 and 2, none for QoS 0), the payload and the
bytes `tail` that were not consumed; the fields of the result are read off these. -/
theorem PublishPacket.Decode_inv (q : PublishPacket) (src : List Nat) (n : Nat)
    (p : PublishPacket) (h : q.Decode src = Result.ok n p) :
    ∃ (b0 hi lo : Nat) (vs topic idb payload tail : List Nat),
      src = (b0 :: vs) ++ (hi :: lo :: (topic ++ (idb ++ (payload ++ tail)))) ∧
      isVarint vs = true ∧ vs.length ≤ 4 ∧ 1 ≤ b0 >>> 4 ∧ b0 >>> 4 ≤ 14 ∧
      varintValue vs ≤ 2 + topic.length + idb.length + payload.length + tail.length ∧
      topic.length = lo ||| (hi <<< 8) ∧
      p.Topic = topic ∧ p.QOS = ((b0 &&& 0x0f) >>> 1) &&& 0x3 ∧ p.QOS ≤ 2 ∧
      p.Retain = (((b0 &&& 0x0f) &&& 0x1) == 1) ∧
      p.Dup = ((((b0 &&& 0x0f) >>> 3) &&& 0x1) == 1) ∧
      (p.QOS = 0 → idb = [] ∧ p.PacketID = q.PacketID) ∧
      (p.QOS ≠ 0 → ∃ ihi ilo, idb = [ihi, ilo] ∧ p.PacketID = ilo ||| (ihi <<< 8)) ∧
      p.Payload = (if payload = [] then q.Payload else payload) ∧
      n = 1 + vs.length + 2 + topic.length + idb.length + payload.length ∧
      (2 + topic.length + idb.length ≤ varintValue vs →
        varintValue vs = 2 + topic.length + idb.length + payload.length) ∧
      (varintValue vs < 2 + topic.length + idb.length → payload = []) := by
  unfold PublishPacket.Decode at h
  cases hd : headerDecode src PUBLISH with
  | panic => simp [hd] at h
  | error e => simp [hd] at h
  | ok hl fr =>
    obtain ⟨flags, rl⟩ := fr
    obtain ⟨b0, vs, rest, rfl, hvs, hk, rfl, rfl, rfl, h1, h2⟩ :=
      headerDecode_inv src PUBLISH hl flags rl hd
    simp only [hd] at h
    by_cases hq : validQOS (((b0 &&& 0x0f) >>> 1) &&& 0x3) = true
    · have hq2 := validQOS_le _ hq
      simp only [hq, Bool.not_true, Bool.false_eq_true, if_false] at h
      by_cases hl2 : ((b0 :: vs) ++ rest).length < 1 + vs.length + 2
      · rw [if_pos hl2] at h; cases h
      · rw [if_neg hl2, sliceFrom_append_left _ _ _ (by simp; omega)] at h
        simp only [] at h
        cases hr : readLPBytes rest with
        | panic => simp [hr] at h
        | error e => simp [hr] at h
        | ok m topic =>
          obtain ⟨hi, lo, rest2, rfl, rfl, htl⟩ := readLPBytes_inv rest m topic hr
          simp only [hr] at h
          have e1 : ∀ D : List Nat, (b0 :: vs) ++ (hi :: lo :: (topic ++ D))
              = ((b0 :: vs) ++ [hi, lo] ++ topic) ++ D := by intro D; simp
          by_cases hq0 : ((b0 &&& 0x0f) >>> 1) &&& 0x3 = 0
          · rw [if_neg (by simpa using hq0)] at h
            obtain ⟨payload, tail, hdrop, hn, hp, hc1, hc2⟩ :=
              decodePayload_inv _ _ _ _ _ n p (by simp; omega) h
            rw [e1, List.drop_left' (by simp; omega)] at hdrop
            subst hdrop hp hn
            have hpl : 1 + vs.length + varintValue vs < 1 + vs.length + (2 + topic.length) →
                payload.length = 0 := by
              intro hlt; rw [hc2 hlt]; rfl
            refine ⟨b0, hi, lo, vs, topic, [], payload, tail, by simp, hvs, hk, h1, h2,
              by simp; omega, htl, rfl, rfl, hq2, rfl, rfl, ?_, ?_, rfl,
              by simp; omega, ?_, ?_⟩
            · intro _; exact ⟨rfl, rfl⟩
            · intro hne; exact absurd hq0 hne
            · intro hle; simp at hle ⊢; omega
            · intro hlt; simp at hlt; exact hc2 (by omega)
          · rw [if_pos hq0] at h
            by_cases hl3 : ((b0 :: vs) ++ (hi :: lo :: (topic ++ rest2))).length
                < 1 + vs.length + (2 + topic.length) + 2
            · rw [if_pos hl3] at h; cases h
            · rw [if_neg hl3] at h
              match rest2, hl3, hr, h with
              | [], hl3, _, _ => simp at hl3; omega
              | [_], hl3, _, _ => simp at hl3; omega
              | ihi :: ilo :: rest3, _, _, h =>
                rw [e1, sliceFrom_append_left _ _ _ (by simp; omega)] at h
                simp only [Option.some_bind, Uint16] at h
                obtain ⟨payload, tail, hdrop, hn, hp, hc1, hc2⟩ :=
                  decodePayload_inv _ _ _ _ _ n p (by simp; omega) h
                have e2 : ((b0 :: vs) ++ [hi, lo] ++ topic) ++ (ihi :: ilo :: rest3)
                    = ((b0 :: vs) ++ [hi, lo] ++ topic ++ [ihi, ilo]) ++ rest3 := by simp
                rw [e2, List.drop_left' (by simp; omega)] at hdrop
                subst hdrop hp hn
                have hpl : 1 + vs.length + varintValue vs
                    < 1 + vs.length + (2 + topic.length) + 2 → payload.length = 0 := by
                  intro hlt; rw [hc2 hlt]; rfl
                refine ⟨b0, hi, lo, vs, topic, [ihi, ilo], payload, tail, by simp, hvs, hk,
                  h1, h2, by simp; omega, htl, rfl, rfl, hq2, rfl, rfl, ?_, ?_, rfl,
                  by simp; omega, ?_, ?_⟩
                · intro h0; exact absurd h0 hq0
                · intro _; exact ⟨ihi, ilo, rfl, rfl⟩
                · intro hle; simp at hle ⊢; omega
                · intro hlt; simp at hlt; exact hc2 (by omega)
    · simp only [hq, Bool.not_false, if_true] at h
      cases h

/-! ## PUBLISH: decode, then encode -/

theorem headerLen_varintValue_le (vs : List Nat) (hne : vs ≠ []) :
    headerLen (varintValue vs) ≤ 1 + vs.length := by
  have h5 : headerLen (varintValue vs) ≤ 5 := by unfold headerLen; split_ifs <;> omega
  rcases vs with _ | ⟨a, _ | ⟨b, _ | ⟨c, _ | ⟨d, rest⟩⟩⟩⟩
  · exact absurd rfl hne
  · have ha := Nat.mod_lt a (show 0 < 128 by decide)
    simp only [varintValue, headerLen]
    split_ifs <;> (simp; try omega)
  · have ha := Nat.mod_lt a (show 0 < 128 by decide)
    have hb := Nat.mod_lt b (show 0 < 128 by decide)
    simp only [varintValue, headerLen]
    split_ifs <;> (simp; try omega)
  · have ha := Nat.mod_lt a (show 0 < 128 by decide)
    have hb := Nat.mod_lt b (show 0 < 128 by decide)
    have hc := Nat.mod_lt c (show 0 < 128 by decide)
    simp only [varintValue, headerLen]
    split_ifs <;> (simp; try omega)
  · simp only [List.length_cons]
    omega

/-- A varint of bytes that is as short as its value allows is the encoding of this
value. -/
theorem remainingLengthEncode_of_minimal (vs : List Nat) (hv : isVarint vs = true)
    (hb : ∀ b ∈ vs, b < 256) (hmin : 1 + vs.length = headerLen (varintValue vs)) :
    remainingLengthEncode (varintValue vs) = some vs := by
  have h5 : headerLen (varintValue vs) ≤ 5 := by unfold headerLen; split_ifs <;> omega
  match vs, hv, hb, hmin, h5 with
  | [], hv, _, _, _ => simp [isVarint] at hv
  | [b1], hv, hb, hmin, _ =>
    simp only [isVarint_singleton, decide_eq_true_eq] at hv
    simp only [varintValue, headerLen, remainingLengthEncode] at hmin ⊢
    split_ifs at hmin ⊢ <;> (simp at hmin ⊢; try omega)
  | [b1, b2], hv, hb, hmin, _ =>
    simp only [isVarint_cons_cons, isVarint_singleton, Bool.and_eq_true,
      decide_eq_true_eq] at hv
    have hb1 := hb b1 (by simp)
    simp only [varintValue, headerLen, remainingLengthEncode] at hmin ⊢
    split_ifs at hmin ⊢ <;> (simp at hmin ⊢; try omega)
  | [b1, b2, b3], hv, hb, hmin, _ =>
    simp only [isVarint_cons_cons, isVarint_singleton, Bool.and_eq_true,
      decide_eq_true_eq] at hv
    have hb1 := hb b1 (by simp)
    have hb2 := hb b2 (by simp)
    simp only [varintValue, headerLen, remainingLengthEncode] at hmin ⊢
    split_ifs at hmin ⊢ <;> (simp at hmin ⊢; try omega)
  | [b1, b2, b3, b4], hv, hb, hmin, _ =>
    simp only [isVarint_cons_cons, isVarint_singleton, Bool.and_eq_true,
      decide_eq_true_eq] at hv
    have hb1 := hb b1 (by simp)
    have hb2 := hb b2 (by simp)
    have hb3 := hb b3 (by simp)
    simp only [varintValue, headerLen, remainingLengthEncode] at hmin ⊢
    split_ifs at hmin ⊢ <;> (simp at hmin ⊢; try omega)
  | _ :: _ :: _ :: _ :: _ :: _, _, _, hmin, h5 => simp at hmin; omega

theorem firstByte_of_decode (b0 : Nat) (h : b0 >>> 4 = PUBLISH) :
    (PUBLISH <<< 4) ||| (if ((((b0 &&& 0x0f) >>> 3) &&& 0x1) == 1) = true then 8 else 0)
      ||| ((((b0 &&& 0x0f) >>> 1) &&& 0x3) <<< 1)
      ||| (if (((b0 &&& 0x0f) &&& 0x1) == 1) = true then 1 else 0) = b0 := by
  have hlt : b0 < 64 := by
    rw [Nat.shiftRight_eq_div_pow] at h
    have : PUBLISH = 3 := rfl
    norm_num at h
    omega
  have hge : 48 ≤ b0 := by
    rw [Nat.shiftRight_eq_div_pow] at h
    have : PUBLISH = 3 := rfl
    norm_num at h
    omega
  have key : ∀ b < 64, 48 ≤ b →
      (PUBLISH <<< 4) ||| (if ((((b &&& 0x0f) >>> 3) &&& 0x1) == 1) = true then 8 else 0)
        ||| ((((b &&& 0x0f) >>> 1) &&& 0x3) <<< 1)
        ||| (if (((b &&& 0x0f) &&& 0x1) == 1) = true then 1 else 0) = b := by
    decide
  exact key b0 hlt hge

theorem Uint16_word (hi lo : Nat) (hhi : hi < 256) (hlo : lo < 256) :
    lo ||| (hi <<< 8) = hi * 256 + lo ∧ (hi * 256 + lo) / 256 = hi ∧
      (hi * 256 + lo) % 256 = lo ∧ hi * 256 + lo < 65536 := by
  rw [or_shiftLeft_eq_add lo hi 8 (by norm_num; omega)]
  norm_num
  omega

/-- C4, as stated, fails: `[0x30, 2, 0, 0]` is accepted by `Decode` with all 4 bytes
consumed, and yields an empty topic, which `Encode` rejects. -/
theorem PublishPacket.decode_then_encode_empty_topic :
    NewPublishPacket.Decode [0x30, 2, 0, 0] = Result.ok 4
        { Topic := [], Payload := [], QOS := 0, Retain := false, Dup := false, PacketID := 0 } ∧
      ([0x30, 2, 0, 0] : List Nat).length = 4 ∧
      PublishPacket.Encode
        { Topic := [], Payload := [], QOS := 0, Retain := false, Dup := false, PacketID := 0 }
        (List.replicate (PublishPacket.Len
          { Topic := [], Payload := [], QOS := 0, Retain := false, Dup := false, PacketID := 0 }) 0)
        = Result.error 0 := by
  decide

/-- C4, amended. PUBLISH decode-then-encode reproduces the input when the image is
canonical: for every byte sequence `src` whose first byte has the type nibble PUBLISH,
whose header declares a remaining length `rl` with `len(src) = headerLen(rl) + rl` (the
varint is as short as `rl` allows and `rl` counts exactly the bytes behind the header),
and that `Decode` into a fresh packet accepts with a non-empty topic, `Decode` consumes
`len(src)` bytes, encoding the decoded packet into a buffer of `Len()` bytes succeeds,
writes `len(src)` bytes identical to `src`, and decoding these bytes again (into the
same packet) succeeds and consumes `len(src)` bytes. -/
theorem PublishPacket.decode_then_encode (src dst : List Nat) (n hl flags rl : Nat)
    (p : PublishPacket) (hb : ∀ b ∈ src, b < 256)
    (hty : src.headD 0 >>> 4 = PUBLISH)
    (hh : headerDecode src PUBLISH = Result.ok hl (flags, rl))
    (hlen : src.length = headerLen rl + rl)
    (hd : NewPublishPacket.Decode src = Result.ok n p)
    (ht : p.Topic ≠ []) (hdst : dst.length = p.Len) :
    n = src.length ∧ p.Len = src.length ∧
      p.Encode dst = Result.ok src.length src ∧
      p.Decode src = Result.ok src.length p := by
  obtain ⟨b0, hi, lo, vs, topic, idb, payload, tail, rfl, hvs, hk, h1, h2, hle, htl, hT, hQ,
    hQ2, hR, hD, hid0, hid1, hP, hn, hc1, hc2⟩ := PublishPacket.Decode_inv _ _ _ _ hd
  have hne : vs ≠ [] := by rintro rfl; simp [isVarint] at hvs
  rw [headerDecode_ok b0 vs _ PUBLISH h1 h2 hvs hk] at hh
  simp only [Result.ok.injEq, Prod.mk.injEq] at hh
  obtain ⟨rfl, rfl, rfl⟩ := hh
  have hhl := headerLen_varintValue_le vs hne
  simp only [List.length_append, List.length_cons] at hlen
  have hmin : 1 + vs.length = headerLen (varintValue vs) := by omega
  have hval : varintValue vs = 2 + topic.length + idb.length + payload.length := by
    apply hc1; omega
  have htail : tail = [] := by
    apply List.eq_nil_of_length_eq_zero; omega
  subst htail
  have hbvs : ∀ b ∈ vs, b < 256 := by intro b hb1; exact hb b (by simp [hb1])
  have henc := remainingLengthEncode_of_minimal vs hvs hbvs hmin
  obtain ⟨hw1, hw2, hw3, hw4⟩ := Uint16_word hi lo (hb hi (by simp)) (hb lo (by simp))
  simp only [List.cons_append, List.headD_cons] at hty
  have hfb : publishFirstByte p = b0 := by
    simp only [publishFirstByte, hQ, hR, hD]
    exact firstByte_of_decode b0 hty
  have hpay : p.Payload = payload := by
    rw [hP]; cases payload <;> simp [NewPublishPacket]
  have htlen : p.Topic.length = hi * 256 + lo := by rw [hT, htl, hw1]
  have htlen2 : topic.length = hi * 256 + lo := by rw [htl, hw1]
  -- the wire image of the decoded packet is `src`
  have hwire : publishWire p vs ++ [] = (b0 :: vs) ++ (hi :: lo :: (topic ++ (idb ++ (payload ++ [])))) ∧
      p.len = varintValue vs ∧ p.PacketID < 65536 := by
    by_cases hq0 : p.QOS = 0
    · obtain ⟨hidb, _⟩ := hid0 hq0
      subst hidb
      refine ⟨?_, ?_, ?_⟩
      · simp [publishWire, hq0, hfb, hT, htlen2, hw2, hw3, hpay]
      · rw [p.len_eq, hval]; simp [publishRemainingLength, hq0, hT, hpay]
      · rw [(hid0 hq0).2]; simp [NewPublishPacket]
    · obtain ⟨ihi, ilo, hidb, hidv⟩ := hid1 hq0
      subst hidb
      obtain ⟨hv1, hv2, hv3, hv4⟩ := Uint16_word ihi ilo (hb ihi (by simp)) (hb ilo (by simp))
      refine ⟨?_, ?_, ?_⟩
      · simp [publishWire, hq0, hfb, hT, htlen2, hw2, hw3, hpay, hidv, hv1, hv2, hv3]
      · rw [p.len_eq, hval]; simp [publishRemainingLength, hq0, hT, hpay]; omega
      · rw [hidv, hv1]; exact hv4
  obtain ⟨hwire, hplen, hpid⟩ := hwire
  have henc2 : remainingLengthEncode p.len = some vs := by rw [hplen]; exact henc
  have hLen : p.Len = 1 + vs.length + varintValue vs := by
    simp only [PublishPacket.Len, hplen, ← hmin]
  have hsrclen : ((b0 :: vs) ++ (hi :: lo :: (topic ++ (idb ++ (payload ++ []))))).length
      = p.Len := by
    rw [hLen, hval]; simp; omega
  have htop : p.Topic.length ≤ 65535 := by omega
  refine ⟨by rw [hn, hsrclen, hLen, hval]; omega, hsrclen.symm, ?_, ?_⟩
  · rw [PublishPacket.Encode_eq p dst vs ht htop (validQOS_of_le _ hQ2) hpid henc2 (by omega),
      List.drop_eq_nil_of_le (by omega), hwire, hsrclen]
  · rw [← hwire, PublishPacket.Decode_publishWire p p vs [] htop hQ2 hpid henc2, hwire, hsrclen]
    congr 1
    obtain ⟨t1, p1, q1, r1, d1, i1⟩ := p
    simp

/-- C4, amended, at the bytes of `TestPublishEqualDecodeEncode`. -/
theorem PublishPacket.decode_then_encode_witness :
    (25 : Nat) = ([0x32, 23, 0, 7, 115, 117, 114, 103, 101, 109, 113, 0, 7,
        115, 101, 110, 100, 32, 109, 101, 32, 104, 111, 109, 101] : List Nat).length ∧
      PublishPacket.Len
        { Topic := [115, 117, 114, 103, 101, 109, 113],
          Payload := [115, 101, 110, 100, 32, 109, 101, 32, 104, 111, 109, 101],
          QOS := 1, Retain := false, Dup := false, PacketID := 7 }
        = ([0x32, 23, 0, 7, 115, 117, 114, 103, 101, 109, 113, 0, 7,
        115, 101, 110, 100, 32, 109, 101, 32, 104, 111, 109, 101] : List Nat).length ∧
      PublishPacket.Encode
        { Topic := [115, 117, 114, 103, 101, 109, 113],
          Payload := [115, 101, 110, 100, 32, 109, 101, 32, 104, 111, 109, 101],
          QOS := 1, Retain := false, Dup := false, PacketID := 7 } (List.replicate 25 0)
        = Result.ok
            ([0x32, 23, 0, 7, 115, 117, 114, 103, 101, 109, 113, 0, 7,
              115, 101, 110, 100, 32, 109, 101, 32, 104, 111, 109, 101] : List Nat).length
            [0x32, 23, 0, 7, 115, 117, 114, 103, 101, 109, 113, 0, 7,
              115, 101, 110, 100, 32, 109, 101, 32, 104, 111, 109, 101] ∧
      PublishPacket.Decode
        { Topic := [115, 117, 114, 103, 101, 109, 113],
          Payload := [115, 101, 110, 100, 32, 109, 101, 32, 104, 111, 109, 101],
          QOS := 1, Retain := false, Dup := false, PacketID := 7 }
        [0x32, 23, 0, 7, 115, 117, 114, 103, 101, 109, 113, 0, 7,
          115, 101, 110, 100, 32, 109, 101, 32, 104, 111, 109, 101]
        = Result.ok
            ([0x32, 23, 0, 7, 115, 117, 114, 103, 101, 109, 113, 0, 7,
              115, 101, 110, 100, 32, 109, 101, 32, 104, 111, 109, 101] : List Nat).length
            { Topic := [115, 117, 114, 103, 101, 109, 113],
              Payload := [115, 101, 110, 100, 32, 109, 101, 32, 104, 111, 109, 101],
              QOS := 1, Retain := false, Dup := false, PacketID := 7 } :=
  PublishPacket.decode_then_encode
    [0x32, 23, 0, 7, 115, 117, 114, 103, 101, 109, 113, 0, 7,
      115, 101, 110, 100, 32, 109, 101, 32, 104, 111, 109, 101]
    (List.replicate 25 0) 25 2 2 23
    { Topic := [115, 117, 114, 103, 101, 109, 113],
      Payload := [115, 101, 110, 100, 32, 109, 101, 32, 104, 111, 109, 101],
      QOS := 1, Retain := false, Dup := false, PacketID := 7 }
    (by decide) (by decide) (by decide) (by decide) (by decide) (by decide) (by decide)

/-! ## Where Decode cannot panic -/

theorem getElem?_append_shift (a b : List Nat) (n k : Nat) (h : n = a.length + k) :
    (a ++ b)[n]? = b[k]? := by
  subst h
  rw [List.getElem?_append_right (by omega)]
  simp

theorem headerDecode_ne_panic (src : List Nat) (t : Nat) :
    headerDecode src t ≠ Result.panic := by
  unfold headerDecode
  cases src with
  | nil => simp
  | cons b0 rest =>
    simp only []
    split_ifs
    · simp
    · cases remainingLengthDecode 4 rest with
      | none => simp
      | some r => simp

theorem readLPBytes_ne_panic (buf : List Nat) : readLPBytes buf ≠ Result.panic := by
  unfold readLPBytes
  cases Uint16 buf with
  | none => simp
  | some n =>
    simp only []
    split_ifs <;> simp

theorem decodePayload_total (pm : PublishPacket) (src : List Nat) (total hl rl : Nat)
    (hrl : hl + rl ≤ src.length) :
    ∃ n p, PublishPacket.decodePayload pm src total hl rl = Result.ok n p := by
  unfold PublishPacket.decodePayload
  by_cases hl0 : ((rl : Int) - ((total : Int) - (hl : Int))) > 0
  · simp only [if_pos hl0]
    have hto : ((rl : Int) - ((total : Int) - (hl : Int))).toNat = hl + rl - total := by omega
    have hs : total ≤ total + (hl + rl - total) ∧ total + (hl + rl - total) ≤ src.length := by
      omega
    rw [hto, slice, if_pos hs]
    exact ⟨_, _, rfl⟩
  · simp only [if_neg hl0]
    exact ⟨_, _, rfl⟩

/-- `PublishPacket.Decode` returns an error or a result, and no slice or index
expression of the function leaves the buffer, on every input in which the payload that
the remaining length declares ends inside the buffer: whenever `src` is a type/flags
byte with a known type and a valid QoS, a complete varint `vs` of at most 4 bytes, a
length-prefixed topic, the identifier bytes `idb` (two when the QoS bits are not 0)
and further bytes `rest`, the value of `vs` is at most the number of bytes behind the
varint.  The topic and identifier reads are guarded in `Decode` itself; the payload
slice `src[total:total+l]` is not. -/
theorem PublishPacket.Decode_total (q : PublishPacket) (src : List Nat)
    (hfit : ∀ (b0 hi lo : Nat) (vs topic idb rest : List Nat),
      src = (b0 :: vs) ++ (hi :: lo :: (topic ++ (idb ++ rest))) →
      1 ≤ b0 >>> 4 → b0 >>> 4 ≤ 14 → ((b0 &&& 0x0f) >>> 1) &&& 0x3 ≤ 2 →
      isVarint vs = true → vs.length ≤ 4 → topic.length = lo ||| (hi <<< 8) →
      idb.length = (if ((b0 &&& 0x0f) >>> 1) &&& 0x3 = 0 then 0 else 2) →
      varintValue vs ≤ 2 + topic.length + idb.length + rest.length) :
    (∃ e, q.Decode src = Result.error e) ∨ ∃ n p, q.Decode src = Result.ok n p := by
  unfold PublishPacket.Decode
  cases hd : headerDecode src PUBLISH with
  | panic => exact absurd hd (headerDecode_ne_panic src PUBLISH)
  | error e => exact Or.inl ⟨e, rfl⟩
  | ok hl fr =>
    obtain ⟨flags, rl⟩ := fr
    obtain ⟨b0, vs, rest, rfl, hvs, hk, rfl, rfl, rfl, h1, h2⟩ :=
      headerDecode_inv src PUBLISH hl flags rl hd
    simp only []
    by_cases hq : validQOS (((b0 &&& 0x0f) >>> 1) &&& 0x3) = true
    · simp only [hq, Bool.not_true, Bool.false_eq_true, if_false]
      by_cases hl2 : ((b0 :: vs) ++ rest).length < 1 + vs.length + 2
      · rw [if_pos hl2]; exact Or.inl ⟨_, rfl⟩
      · rw [if_neg hl2, sliceFrom_append_left _ _ _ (by simp; omega)]
        simp only []
        cases hr : readLPBytes rest with
        | panic => exact absurd hr (readLPBytes_ne_panic rest)
        | error e => exact Or.inl ⟨_, rfl⟩
        | ok m topic =>
          obtain ⟨hi, lo, rest2, rfl, rfl, htl⟩ := readLPBytes_inv rest m topic hr
          simp only []
          have e1 : ∀ D : List Nat, (b0 :: vs) ++ (hi :: lo :: (topic ++ D))
              = ((b0 :: vs) ++ [hi, lo] ++ topic) ++ D := by intro D; simp
          by_cases hq0 : ((b0 &&& 0x0f) >>> 1) &&& 0x3 = 0
          · rw [if_neg (by simpa using hq0)]
            have hrl := hfit b0 hi lo vs topic [] rest2 (by simp) h1 h2 (validQOS_le _ hq)
              hvs hk htl (by rw [if_pos hq0]; rfl)
            exact Or.inr (decodePayload_total _ _ _ _ _ (by simp at hrl ⊢; omega))
          · rw [if_pos hq0]
            by_cases hl3 : ((b0 :: vs) ++ (hi :: lo :: (topic ++ rest2))).length
                < 1 + vs.length + (2 + topic.length) + 2
            · rw [if_pos hl3]; exact Or.inl ⟨_, rfl⟩
            · rw [if_neg hl3]
              match rest2, hl3, hfit with
              | [], hl3, _ => simp at hl3; omega
              | [_], hl3, _ => simp at hl3; omega
              | ihi :: ilo :: rest3, _, hfit =>
                have hrl := hfit b0 hi lo vs topic [ihi, ilo] rest3 (by simp) h1 h2
                  (validQOS_le _ hq) hvs hk htl (by rw [if_neg hq0]; rfl)
                rw [e1, sliceFrom_append_left _ _ _ (by simp; omega)]
                simp only [Option.some_bind, Uint16]
                exact Or.inr (decodePayload_total _ _ _ _ _ (by simp at hrl ⊢; omega))
    · simp only [hq, Bool.not_false, if_true]
      exact Or.inl ⟨_, rfl⟩

/-- What a successful `ConnackPacket.Decode` has read: a type/flags byte, a complete
varint of value 2, the acknowledge flags and the return code; 2 bytes are consumed
behind the header. -/
theorem connack_Decode_inv (q : ConnackPacket) (src : List Nat) (n : Nat)
    (p : ConnackPacket) (h : q.Decode src = Result.ok n p) :
    ∃ (b0 f rc : Nat) (vs tail : List Nat),
      src = (b0 :: vs) ++ (f :: rc :: tail) ∧ isVarint vs = true ∧ vs.length ≤ 4 ∧
      1 ≤ b0 >>> 4 ∧ b0 >>> 4 ≤ 14 ∧ varintValue vs = 2 ∧ n = 1 + vs.length + 2 ∧
      f &&& 254 = 0 ∧ rc ≤ 5 ∧ p = { SessionPresent := (f &&& 0x1) == 1, ReturnCode := rc } := by
  unfold ConnackPacket.Decode at h
  cases hd : headerDecode src CONNACK with
  | panic => simp [hd] at h
  | error e => simp [hd] at h
  | ok hl fr =>
    obtain ⟨flags, rl⟩ := fr
    obtain ⟨b0, vs, rest, rfl, hvs, hk, rfl, rfl, rfl, h1, h2⟩ :=
      headerDecode_inv src CONNACK hl flags rl hd
    simp only [hd] at h
    by_cases h2' : varintValue vs = 2
    · rw [if_neg (by simpa using h2')] at h
      match rest, h with
      | [], h =>
        rw [getElem?_append_shift _ _ _ 0 (by simp; omega)] at h
        simp at h
      | [f], h =>
        rw [getElem?_append_shift _ _ _ 0 (by simp; omega),
          getElem?_append_shift _ _ _ 1 (by simp; omega)] at h
        simp only [List.getElem?_cons_zero, List.getElem?_cons_succ,
          List.getElem?_nil] at h
        split_ifs at h
      | f :: rc :: tail, h =>
        have e0 : ((b0 :: vs) ++ (f :: rc :: tail))[1 + vs.length]? = some f := by
          rw [getElem?_append_shift _ _ _ 0 (by simp; omega)]
          rfl
        have e1 : ((b0 :: vs) ++ (f :: rc :: tail))[1 + vs.length + 1]? = some rc := by
          rw [getElem?_append_shift _ _ _ 1 (by simp; omega)]
          simp
        simp only [e0, e1] at h
        by_cases hf : f &&& 254 = 0
        · rw [if_neg (by simpa using hf)] at h
          by_cases hv : ConnackCode.Valid rc = true
          · simp only [hv, Bool.not_true, Bool.false_eq_true, if_false, Result.ok.injEq] at h
            obtain ⟨rfl, rfl⟩ := h
            exact ⟨b0, f, rc, vs, tail, rfl, hvs, hk, h1, h2, h2', by omega, hf,
              by simpa [ConnackCode.Valid] using hv, rfl⟩
          · simp only [hv, Bool.not_false, if_true] at h
            cases h
        · rw [if_pos (by simpa using hf)] at h
          cases h
    · rw [if_pos (by simpa using h2')] at h
      cases h

/-- `ConnackPacket.Decode` returns an error or a result on every input whose header,
when it decodes and declares the remaining length 2, is followed by two bytes.  The
index expressions `src[total]` are not guarded in `Decode` itself. -/
theorem connack_Decode_total (q : ConnackPacket) (src : List Nat)
    (hfit : ∀ hl flags, headerDecode src CONNACK = Result.ok hl (flags, 2) →
      hl + 2 ≤ src.length) :
    (∃ e, q.Decode src = Result.error e) ∨ ∃ n p, q.Decode src = Result.ok n p := by
  unfold ConnackPacket.Decode
  cases hd : headerDecode src CONNACK with
  | panic => exact absurd hd (headerDecode_ne_panic src CONNACK)
  | error e => exact Or.inl ⟨e, rfl⟩
  | ok hl fr =>
    obtain ⟨flags, rl⟩ := fr
    have hrl : rl = 2 → hl + 2 ≤ src.length := by
      intro h2; subst h2; exact hfit hl flags hd
    obtain ⟨b0, vs, rest, rfl, hvs, hk, rfl, rfl, rfl, h1, h2⟩ :=
      headerDecode_inv src CONNACK hl flags rl hd
    simp only []
    by_cases h2' : varintValue vs = 2
    · rw [if_neg (by simpa using h2')]
      have hrl2 := hrl h2'
      match rest, hrl2 with
      | [], hrl2 => simp at hrl2; omega
      | [_], hrl2 => simp at hrl2
      | f :: rc :: tail, _ =>
        have e0 : ((b0 :: vs) ++ (f :: rc :: tail))[1 + vs.length]? = some f := by
          rw [getElem?_append_shift _ _ _ 0 (by simp; omega)]
          rfl
        have e1 : ((b0 :: vs) ++ (f :: rc :: tail))[1 + vs.length + 1]? = some rc := by
          rw [getElem?_append_shift _ _ _ 1 (by simp; omega)]
          simp
        simp only [e0, e1]
        split_ifs
        · exact Or.inl ⟨_, rfl⟩
        · exact Or.inl ⟨_, rfl⟩
        · exact Or.inr ⟨_, _, rfl⟩
    · rw [if_pos (by simpa using h2')]
      exact Or.inl ⟨_, rfl⟩

/-! ## Detect, then decode -/

/-- C5, as stated, fails: `DetectPacket` validates nothing behind the fixed header.
`[0x36, 0]` is detected as a PUBLISH packet of 2 bytes whose decoding fails (QoS 3), and
`[0x20, 0]` as a CONNACK packet of 2 bytes whose decoding fails (remaining length 0). -/
theorem detect_then_decode_fails :
    DetectPacket [0x36, 0] = (2, PUBLISH) ∧
      NewPublishPacket.Decode (([0x36, 0] : List Nat).take 2) = Result.error 2 ∧
      DetectPacket [0x20, 0] = (2, CONNACK) ∧
      NewConnackPacket.Decode (([0x20, 0] : List Nat).take 2) = Result.error 2 := by
  decide

/-- C5, amended. Detect-then-decode consistency: if `DetectPacket(buf)` returns `(n, t)`
with `0 < n <= len(buf)` and `t` is PUBLISH (respectively CONNACK), then
`PublishPacket.Decode` (respectively `ConnackPacket.Decode`) applied to `buf[:n]`, into
any receiver, either returns an error or succeeds, consumes exactly `n` bytes and yields
a packet whose `Type()` equals `t`. -/
theorem detect_then_decode (buf : List Nat) (n t : Nat)
    (hdet : DetectPacket buf = ((n : Int), t)) (hpos : 0 < n) (hn : n ≤ buf.length) :
    (t = PUBLISH → ∀ q : PublishPacket,
        (q.Decode (buf.take n)).isError = true ∨
          ∃ p, q.Decode (buf.take n) = Result.ok n p ∧ p.Type = t) ∧
      (t = CONNACK → ∀ q : ConnackPacket,
        (q.Decode (buf.take n)).isError = true ∨
          ∃ p, q.Decode (buf.take n) = Result.ok n p ∧ p.Type = t) := by
  have hlen : (buf.take n).length = n := by simp; omega
  -- a header that decodes on `buf[:n]` declares exactly the bytes that follow it
  have hfit : ∀ t0 hl flags rl, headerDecode (buf.take n) t0 = Result.ok hl (flags, rl) →
      hl + rl = (buf.take n).length := by
    intro t0 hl flags rl hd
    obtain ⟨b0, vs, rest, hs, hvs, hk, rfl, rfl, _⟩ := headerDecode_inv _ _ _ _ _ hd
    have hbuf : buf = (b0 :: vs) ++ (rest ++ buf.drop n) := by
      rw [← List.append_assoc, ← hs, List.take_append_drop]
    rw [hbuf, DetectPacket_header b0 vs _ hvs (by omega)] at hdet
    simp only [Prod.mk.injEq, Nat.cast_inj] at hdet
    omega
  constructor
  · intro ht q
    have hpay : ∀ (b0 hi lo : Nat) (vs topic idb rest : List Nat),
        buf.take n = (b0 :: vs) ++ (hi :: lo :: (topic ++ (idb ++ rest))) →
        1 ≤ b0 >>> 4 → b0 >>> 4 ≤ 14 → ((b0 &&& 0x0f) >>> 1) &&& 0x3 ≤ 2 →
        isVarint vs = true → vs.length ≤ 4 → topic.length = lo ||| (hi <<< 8) →
        idb.length = (if ((b0 &&& 0x0f) >>> 1) &&& 0x3 = 0 then 0 else 2) →
        varintValue vs ≤ 2 + topic.length + idb.length + rest.length := by
      intro b0 hi lo vs topic idb rest hs _ _ _ hvs hk _ _
      have hbuf : buf = (b0 :: vs) ++
          ((hi :: lo :: (topic ++ (idb ++ rest))) ++ buf.drop n) := by
        rw [← List.append_assoc, ← hs, List.take_append_drop]
      rw [hbuf, DetectPacket_header b0 vs _ hvs (by omega)] at hdet
      simp only [Prod.mk.injEq, Nat.cast_inj] at hdet
      rw [hs] at hlen
      simp only [List.length_append, List.length_cons] at hlen
      omega
    rcases PublishPacket.Decode_total q (buf.take n) hpay with ⟨e, he⟩ | ⟨m, p, hok⟩
    · left; rw [he]; rfl
    · right
      obtain ⟨b0, hi, lo, vs, topic, idb, payload, tail, hs, hvs, hk, _, _, _, _, _, _, _, _,
        _, _, _, _, hm, hc1, _⟩ := PublishPacket.Decode_inv _ _ _ _ hok
      have hbuf : buf = (b0 :: vs) ++
          ((hi :: lo :: (topic ++ (idb ++ (payload ++ tail)))) ++ buf.drop n) := by
        rw [← List.append_assoc, ← hs, List.take_append_drop]
      rw [hbuf, DetectPacket_header b0 vs _ hvs (by omega)] at hdet
      simp only [Prod.mk.injEq, Nat.cast_inj] at hdet
      rw [hs] at hlen
      simp only [List.length_append, List.length_cons] at hlen
      have hval := hc1 (by omega)
      have hmn : m = n := by omega
      subst hmn
      exact ⟨p, hok, by rw [ht]; rfl⟩
  · intro ht q
    rcases connack_Decode_total q (buf.take n)
      (fun hl flags hd => le_of_eq (hfit _ hl flags 2 hd)) with ⟨e, he⟩ | ⟨m, p, hok⟩
    · left; rw [he]; rfl
    · right
      obtain ⟨b0, f, rc, vs, tail, hs, hvs, hk, _, _, hval, hm, _, _, _⟩ :=
        connack_Decode_inv _ _ _ _ hok
      have hbuf : buf = (b0 :: vs) ++ ((f :: rc :: tail) ++ buf.drop n) := by
        rw [← List.append_assoc, ← hs, List.take_append_drop]
      rw [hbuf, DetectPacket_header b0 vs _ hvs (by omega)] at hdet
      simp only [Prod.mk.injEq, Nat.cast_inj] at hdet
      have hmn : m = n := by omega
      subst hmn
      exact ⟨p, hok, by rw [ht]; rfl⟩

/-- C5, amended, at the bytes of `TestPublishPacketDecode1` followed by the first two
bytes of the next packet. -/
theorem detect_then_decode_witness :
    (PUBLISH = PUBLISH → ∀ q : PublishPacket,
        (q.Decode (([0x3b, 23, 0, 7, 115, 117, 114, 103, 101, 109, 113, 0, 7,
            115, 101, 110, 100, 32, 109, 101, 32, 104, 111, 109, 101, 0x20, 2] :
              List Nat).take 25)).isError = true ∨
          ∃ p, q.Decode (([0x3b, 23, 0, 7, 115, 117, 114, 103, 101, 109, 113, 0, 7,
            115, 101, 110, 100, 32, 109, 101, 32, 104, 111, 109, 101, 0x20, 2] :
              List Nat).take 25) = Result.ok 25 p ∧ p.Type = PUBLISH) ∧
      (PUBLISH = CONNACK → ∀ q : ConnackPacket,
        (q.Decode (([0x3b, 23, 0, 7, 115, 117, 114, 103, 101, 109, 113, 0, 7,
            115, 101, 110, 100, 32, 109, 101, 32, 104, 111, 109, 101, 0x20, 2] :
              List Nat).take 25)).isError = true ∨
          ∃ p, q.Decode (([0x3b, 23, 0, 7, 115, 117, 114, 103, 101, 109, 113, 0, 7,
            115, 101, 110, 100, 32, 109, 101, 32, 104, 111, 109, 101, 0x20, 2] :
              List Nat).take 25) = Result.ok 25 p ∧ p.Type = PUBLISH) :=
  detect_then_decode
    [0x3b, 23, 0, 7, 115, 117, 114, 103, 101, 109, 113, 0, 7,
      115, 101, 110, 100, 32, 109, 101, 32, 104, 111, 109, 101, 0x20, 2] 25 PUBLISH
    (by decide) (by decide) (by decide)

/-! ## PUBLISH: remaining length against consumed bytes -/

/-- C10 at `[0x30, 0, 0, 1, 't']`: the header declares remaining length 0, the topic
takes 3 bytes, and `Decode` returns no error and reports 5 bytes consumed, where header
length plus remaining length is 2, the length `DetectPacket` reports for this packet. -/
theorem PublishPacket.Decode_negative_payload_length :
    headerDecode [0x30, 0, 0, 1, 116] PUBLISH = Result.ok 2 (0, 0) ∧
      NewPublishPacket.Decode [0x30, 0, 0, 1, 116] = Result.ok 5
        { Topic := [116], Payload := [], QOS := 0, Retain := false, Dup := false, PacketID := 0 } ∧
      DetectPacket [0x30, 0, 0, 1, 116] = (2, PUBLISH) := by
  decide

/-! ## PUBLISH: safety of Decode and the QoS check -/

/-- C11, as stated, fails: `[0x30, 3, 0, 1, 't']` (QoS 0, empty payload) decoded into a
packet that still holds the payload `[112, 113]` of an earlier message succeeds, and
the `Payload` of the result is still `[112, 113]`, which is no segment of `src`. -/
theorem PublishPacket.Decode_payload_outside_src :
    PublishPacket.Decode
        { Topic := [97], Payload := [112, 113], QOS := 0, Retain := false, Dup := false,
          PacketID := 0 }
        [0x30, 3, 0, 1, 116] = Result.ok 5
        { Topic := [116], Payload := [112, 113], QOS := 0, Retain := false, Dup := false,
          PacketID := 0 } ∧
      ¬ ∃ pre post : List Nat, [0x30, 3, 0, 1, 116] = pre ++ [112, 113] ++ post := by
  refine ⟨by decide, ?_⟩
  rintro ⟨pre, post, h⟩
  have hm : 112 ∈ ([0x30, 3, 0, 1, 116] : List Nat) := by rw [h]; simp
  revert hm
  decide

/-- C11, amended. PUBLISH decode is safe on every input, truncated ones included,
except where a declared payload extends past the end of `src`.  The exception is
`hfit`: whenever `src` is a type/flags byte `b0` with a known type (1..14) and a valid
QoS, a complete varint `vs` of at most 4 bytes, the two bytes `hi lo` of the topic
length, a topic of that length, the identifier bytes `idb` (two when the QoS is not 0,
none otherwise) and further bytes `rest`, the remaining length (the value of `vs`) is
at most the number of bytes behind the varint.  The topic length prefix, the topic
bytes and the identifier may extend past the end of `src`.  On such an input `Decode`,
into any receiver `q`, does not panic (no slice or index expression leaves `src`); when
it succeeds, the consumed count is at most `len(src)`, `Topic` is the segment of `src`
behind the 2-byte length prefix, the decoded payload is the segment of `src` behind the
identifier that extends to the end of the declared remaining length, and `Payload` is
that segment when it is not empty and the `Payload` the receiver held before when it is
empty. -/
theorem PublishPacket.Decode_safe (q : PublishPacket) (src : List Nat)
    (hfit : ∀ (b0 hi lo : Nat) (vs topic idb rest : List Nat),
      src = (b0 :: vs) ++ (hi :: lo :: (topic ++ (idb ++ rest))) →
      1 ≤ b0 >>> 4 → b0 >>> 4 ≤ 14 → ((b0 &&& 0x0f) >>> 1) &&& 0x3 ≤ 2 →
      isVarint vs = true → vs.length ≤ 4 → topic.length = lo ||| (hi <<< 8) →
      idb.length = (if ((b0 &&& 0x0f) >>> 1) &&& 0x3 = 0 then 0 else 2) →
      varintValue vs ≤ 2 + topic.length + idb.length + rest.length) :
    q.Decode src ≠ Result.panic ∧
      ∀ n p, q.Decode src = Result.ok n p →
        n ≤ src.length ∧
        ∃ (b0 hi lo : Nat) (vs idb payload tail : List Nat),
          src = (b0 :: vs) ++ (hi :: lo :: (p.Topic ++ (idb ++ (payload ++ tail)))) ∧
          isVarint vs = true ∧ p.Topic.length = lo ||| (hi <<< 8) ∧
          idb.length = (if p.QOS = 0 then 0 else 2) ∧
          n = 1 + vs.length + 2 + p.Topic.length + idb.length + payload.length ∧
          (2 + p.Topic.length + idb.length ≤ varintValue vs →
            2 + p.Topic.length + idb.length + payload.length = varintValue vs) ∧
          p.Payload = (if payload = [] then q.Payload else payload) := by
  constructor
  · rcases PublishPacket.Decode_total q src hfit with ⟨e, he⟩ | ⟨n, p, hok⟩
    · rw [he]; simp
    · rw [hok]; simp
  · intro n p hok
    obtain ⟨b0, hi, lo, vs, topic, idb, payload, tail, rfl, hvs, _, _, _, _, htl, hT, _, _, _,
      _, hid0, hid1, hP, hn, hc1, _⟩ := PublishPacket.Decode_inv _ _ _ _ hok
    have hidl : idb.length = (if p.QOS = 0 then 0 else 2) := by
      by_cases hq0 : p.QOS = 0
      · rw [if_pos hq0, (hid0 hq0).1]; rfl
      · obtain ⟨ihi, ilo, hidb, _⟩ := hid1 hq0
        rw [if_neg hq0, hidb]; rfl
    refine ⟨by rw [hn]; simp; omega, b0, hi, lo, vs, idb, payload, tail, by rw [hT], hvs,
      by rw [hT]; exact htl, hidl, by rw [hT]; exact hn, ?_, hP⟩
    intro hle
    rw [hT] at hle ⊢
    exact (hc1 hle).symm

/-- C11, amended, at the truncated buffer of `TestPublishPacketDecodeError1` (the
header declares 2 bytes and none follows: no panic), and at a complete QoS 1 image
decoded into a packet that holds earlier field contents: the call succeeds, 8 bytes are
consumed, and topic and payload are the segments `[116]` and `[112]` of the image. -/
theorem PublishPacket.Decode_safe_witness :
    NewPublishPacket.Decode [0x30, 2] ≠ Result.panic ∧
      PublishPacket.Decode
        { Topic := [97], Payload := [9], QOS := 2, Retain := true, Dup := true, PacketID := 7 }
        [0x32, 6, 0, 1, 116, 0, 1, 112] = Result.ok 8
        { Topic := [116], Payload := [112], QOS := 1, Retain := false, Dup := false,
          PacketID := 1 } ∧
      (8 : Nat) ≤ ([0x32, 6, 0, 1, 116, 0, 1, 112] : List Nat).length :=
  ⟨(PublishPacket.Decode_safe NewPublishPacket [0x30, 2] (by
      intro b0 hi lo vs topic idb rest hs _ _ _ hv _ _ _
      have hl := congrArg List.length hs
      cases vs with
      | nil => simp [isVarint] at hv
      | cons a tl => simp at hl)).1,
    by decide,
    ((PublishPacket.Decode_safe
      { Topic := [97], Payload := [9], QOS := 2, Retain := true, Dup := true, PacketID := 7 }
      [0x32, 6, 0, 1, 116, 0, 1, 112] (by
      intro b0 hi lo vs topic idb rest hs _ _ _ hv _ _ _
      simp only [List.cons_append, List.cons.injEq] at hs
      obtain ⟨_, hs⟩ := hs
      obtain ⟨rfl, hr⟩ := isVarint_append_unique [6] vs [0, 1, 116, 0, 1, 112] _
        (by decide) hv hs
      have hl := congrArg List.length hr
      simp only [List.length_cons, List.length_append, List.length_nil] at hl
      simp only [varintValue]
      omega)).2 8
      { Topic := [116], Payload := [112], QOS := 1, Retain := false, Dup := false,
        PacketID := 1 } (by decide)).1⟩

theorem qos3_bits (b0 : Nat) (hty : b0 >>> 4 = PUBLISH) (hq : b0 &&& 6 = 6) :
    ((b0 &&& 0x0f) >>> 1) &&& 0x3 = 3 := by
  have hPU : PUBLISH = 3 := rfl
  rw [Nat.shiftRight_eq_div_pow, hPU] at hty
  have hlt : b0 < 64 := by norm_num at hty; omega
  have key : ∀ b < 64, b &&& 6 = 6 → ((b &&& 0x0f) >>> 1) &&& 0x3 = 3 := by decide
  exact key b0 hlt hq

/-- C12. Every byte slice whose first byte has the type nibble PUBLISH and both QoS flag
bits (bits 1 and 2) set is rejected by `Decode` with an error; whenever `Decode`
succeeds the decoded QoS is 0, 1 or 2. -/
theorem PublishPacket.Decode_QOS_valid (q : PublishPacket) (src : List Nat) :
    (src.headD 0 >>> 4 = PUBLISH → src.headD 0 &&& 6 = 6 →
        (q.Decode src).isError = true) ∧
      ∀ n p, q.Decode src = Result.ok n p → p.QOS ≤ 2 := by
  constructor
  · intro hty hq
    unfold PublishPacket.Decode
    cases hd : headerDecode src PUBLISH with
    | panic => exact absurd hd (headerDecode_ne_panic src PUBLISH)
    | error e => rfl
    | ok hl fr =>
      obtain ⟨flags, rl⟩ := fr
      obtain ⟨b0, vs, rest, rfl, _, _, rfl, rfl, rfl, _, _⟩ :=
        headerDecode_inv src PUBLISH hl flags rl hd
      simp only [List.cons_append, List.headD_cons] at hty hq
      simp only [qos3_bits b0 hty hq]
      rfl
  · intro n p hok
    obtain ⟨_, _, _, _, _, _, _, _, _, _, _, _, _, _, _, _, _, hQ2, _⟩ :=
      PublishPacket.Decode_inv _ _ _ _ hok
    exact hQ2

/-- C12 at the bytes of `TestPublishPacketDecodeError2`. -/
theorem PublishPacket.Decode_QOS_valid_witness :
    (NewPublishPacket.Decode [0x36, 0]).isError = true :=
  (PublishPacket.Decode_QOS_valid NewPublishPacket [0x36, 0]).1 (by decide) (by decide)

/-! ## PUBLISH: what Encode rejects -/

/-- `PublishPacket.Encode` returns an error or a result on every input: no write leaves
the destination buffer. -/
theorem PublishPacket.Encode_total (p : PublishPacket) (dst : List Nat) :
    (∃ e, p.Encode dst = Result.error e) ∨ ∃ n d, p.Encode dst = Result.ok n d := by
  by_cases ht : p.Topic = []
  · left; exact ⟨0, by simp [PublishPacket.Encode, ht]⟩
  · have ht0 : ¬ p.Topic.length = 0 := by simpa using ht
    by_cases hq : validQOS p.QOS = true
    · by_cases hdst : dst.length < p.Len
      · left; exact ⟨0, by simp [PublishPacket.Encode, ht, hq, headerEncode, hdst]⟩
      · cases hrl : remainingLengthEncode p.len with
        | none =>
          left; exact ⟨0, by simp [PublishPacket.Encode, ht, hq, headerEncode, hdst, hrl]⟩
        | some vs =>
          by_cases ht2 : p.Topic.length ≤ 65535
          · right
            exact ⟨_, _, PublishPacket.Encode_raw p dst vs ht ht2 hq hrl (by omega)⟩
          · left
            have hh := (remainingLengthEncode_length _ _ hrl).1
            have hLen : p.Len = 1 + vs.length + p.len := by simp [PublishPacket.Len, hh]
            refine ⟨1 + vs.length + 0, ?_⟩
            unfold PublishPacket.Encode
            simp only [if_neg ht0, hq, Bool.not_true, Bool.false_eq_true, if_false]
            rw [headerEncode_ok dst _ p.len p.Len PUBLISH vs hrl (by omega) (by omega)]
            simp only []
            rw [sliceFrom_append_left _ _ _ (by simp; omega)]
            simp [writeLPBytes, show 65535 < p.Topic.length by omega]
    · left; exact ⟨0, by simp [PublishPacket.Encode, ht, hq]⟩

/-- C13. A packet whose topic is empty or whose QoS is not 0, 1 or 2 (the
subscription-failure value `0x80` included) is rejected by `Encode` for every
destination buffer: it returns an error and reports 0 bytes written. -/
theorem PublishPacket.Encode_rejects_invalid (p : PublishPacket) (dst : List Nat)
    (h : p.Topic = [] ∨ ¬ (p.QOS = 0 ∨ p.QOS = 1 ∨ p.QOS = 2)) :
    p.Encode dst = Result.error 0 := by
  by_cases ht : p.Topic = []
  · simp [PublishPacket.Encode, ht]
  · have hq : validQOS p.QOS = false := by
      rcases h with h | h
      · exact absurd h ht
      · simp only [validQOS, Bool.or_eq_false_iff, decide_eq_false_iff_not]
        omega
    simp [PublishPacket.Encode, ht, hq]

/-- C13 at a packet with topic "t" and the QoS value `0x80`. -/
theorem PublishPacket.Encode_rejects_invalid_witness :
    PublishPacket.Encode
        { Topic := [116], Payload := [], QOS := 0x80, Retain := false, Dup := false,
          PacketID := 0 } (List.replicate 7 0) = Result.error 0 :=
  PublishPacket.Encode_rejects_invalid _ _ (Or.inr (by decide))

/-- C14. For a packet with a non-empty topic and a valid QoS, `Encode` returns an error
(and does not panic: nothing is written outside `dst`) when `dst` is shorter than
`Len()`, and also when the topic is longer than 65535 bytes, whatever the size of
`dst`. -/
theorem PublishPacket.Encode_rejects_small_or_oversized (p : PublishPacket)
    (dst : List Nat) (_ht : p.Topic ≠ []) (_hq : p.QOS ≤ 2)
    (h : dst.length < p.Len ∨ 65535 < p.Topic.length) :
    (p.Encode dst).isError = true := by
  rcases PublishPacket.Encode_total p dst with ⟨e, he⟩ | ⟨n, d, hok⟩
  · rw [he]; rfl
  · obtain ⟨_, ht2, _, hdst, _⟩ := PublishPacket.Encode_ok_inv p dst n d hok
    omega

/-- C14 at the packet and the 1-byte buffer of `TestPublishPacketEncodeError3`. -/
theorem PublishPacket.Encode_rejects_small_or_oversized_witness :
    (PublishPacket.Encode
        { Topic := [116], Payload := [], QOS := 0, Retain := false, Dup := false,
          PacketID := 0 } [0]).isError = true :=
  PublishPacket.Encode_rejects_small_or_oversized _ _ (by decide) (by decide)
    (Or.inl (by decide))

/-! ## CONNACK -/

theorem ConnackPacket.Len_eq (p : ConnackPacket) : p.Len = 4 := rfl

/-- What `ConnackPacket.Encode` writes for a valid return code into a destination of at
least 4 bytes. -/
theorem connack_Encode_eq (p : ConnackPacket) (dst : List Nat) (hrc : p.ReturnCode ≤ 5)
    (hdst : 4 ≤ dst.length) :
    p.Encode dst = Result.ok 4
      ([CONNACK <<< 4, 2, if p.SessionPresent then 1 else 0, p.ReturnCode] ++ dst.drop 4) := by
  match dst, hdst with
  | a :: b :: c :: d :: rest, _ =>
    have hv : ConnackCode.Valid p.ReturnCode = true := by simpa [ConnackCode.Valid] using hrc
    have hvs : remainingLengthEncode 2 = some [2] := rfl
    unfold ConnackPacket.Encode
    rw [headerEncode_ok _ 0 2 p.Len CONNACK [2] hvs (by simp [ConnackPacket.Len_eq])
      (by simp)]
    simp [setIndex, hv, CONNACK]

/-- `ConnackPacket.Encode` with a return code above 5 returns an error: from the header
when `dst` is shorter than 4 bytes, from the return-code check otherwise. -/
theorem connack_Encode_invalid (p : ConnackPacket) (dst : List Nat)
    (hrc : 5 < p.ReturnCode) : ∃ e, p.Encode dst = Result.error e := by
  by_cases hdst : dst.length < 4
  · exact ⟨0, by simp [ConnackPacket.Encode, headerEncode, ConnackPacket.Len_eq, hdst]⟩
  · have hdst4 : 4 ≤ dst.length := by omega
    match dst, hdst4 with
    | a :: b :: c :: d :: rest, _ =>
      have hv : ConnackCode.Valid p.ReturnCode = false := by
        simp only [ConnackCode.Valid, decide_eq_false_iff_not]; omega
      have hvs : remainingLengthEncode 2 = some [2] := rfl
      refine ⟨3, ?_⟩
      unfold ConnackPacket.Encode
      rw [headerEncode_ok _ 0 2 p.Len CONNACK [2] hvs (by simp [ConnackPacket.Len_eq])
        (by simp)]
      simp [setIndex, hv]

/-- `ConnackPacket.Encode` returns an error or a result on every input. -/
theorem connack_Encode_total (p : ConnackPacket) (dst : List Nat) :
    (∃ e, p.Encode dst = Result.error e) ∨ ∃ n d, p.Encode dst = Result.ok n d := by
  by_cases hdst : dst.length < 4
  · left
    exact ⟨0, by simp [ConnackPacket.Encode, headerEncode, ConnackPacket.Len_eq, hdst]⟩
  · by_cases hrc : p.ReturnCode ≤ 5
    · right; exact ⟨_, _, connack_Encode_eq p dst hrc (by omega)⟩
    · left; exact connack_Encode_invalid p dst (by omega)

/-- `ConnackPacket.Decode` on a well-formed image: a header declaring remaining length
2, acknowledge flags without reserved bits, a valid return code. -/
theorem connack_Decode_ok (q : ConnackPacket) (b0 f rc : Nat) (vs tail : List Nat)
    (h1 : 1 ≤ b0 >>> 4) (h2 : b0 >>> 4 ≤ 14) (hv : isVarint vs = true) (hk : vs.length ≤ 4)
    (hval : varintValue vs = 2) (hf : f &&& 254 = 0) (hrc : rc ≤ 5) :
    q.Decode ((b0 :: vs) ++ (f :: rc :: tail))
      = Result.ok (1 + vs.length + 2) { SessionPresent := (f &&& 0x1) == 1, ReturnCode := rc } := by
  have e0 : ((b0 :: vs) ++ (f :: rc :: tail))[1 + vs.length]? = some f := by
    rw [getElem?_append_shift _ _ _ 0 (by simp; omega)]
    rfl
  have e1 : ((b0 :: vs) ++ (f :: rc :: tail))[1 + vs.length + 1]? = some rc := by
    rw [getElem?_append_shift _ _ _ 1 (by simp; omega)]
    simp
  have hvalid : ConnackCode.Valid rc = true := by simpa [ConnackCode.Valid] using hrc
  unfold ConnackPacket.Decode
  rw [headerDecode_ok b0 vs _ CONNACK h1 h2 hv hk]
  simp only [hval, ne_eq, not_true_eq_false, if_false, e0, e1, hf, hvalid, Bool.not_true,
    Bool.false_eq_true]

/-- A successful `ConnackPacket.Decode` on a buffer with the fixed header `b0 :: vs`:
the varint has value 2, two bytes follow it, the first without reserved bits and the
second a valid return code. -/
theorem connack_Decode_ok_header (q : ConnackPacket) (b0 : Nat) (vs rest : List Nat)
    (n : Nat) (p : ConnackPacket) (hv : isVarint vs = true)
    (h : q.Decode ((b0 :: vs) ++ rest) = Result.ok n p) :
    varintValue vs = 2 ∧ n = 1 + vs.length + 2 ∧
      ∃ f rc tail, rest = f :: rc :: tail ∧ f &&& 254 = 0 ∧ rc ≤ 5 ∧
        p = { SessionPresent := (f &&& 0x1) == 1, ReturnCode := rc } := by
  obtain ⟨c0, f, rc, ws, tail, hs, hw, _, _, _, hval, hn, hf, hrc, hp⟩ :=
    connack_Decode_inv _ _ _ _ h
  simp only [List.cons_append, List.cons.injEq] at hs
  obtain ⟨rfl, hs⟩ := hs
  obtain ⟨rfl, rfl⟩ := isVarint_append_unique vs ws rest _ hv hw hs
  exact ⟨hval, hn, f, rc, tail, rfl, hf, hrc, hp⟩

/-- C15. CONNACK wire layout: for a return code in [0,5] and a destination of at least
4 bytes, `Encode` succeeds, reports 4 bytes written, which is `Len()`, and the first 4
bytes of `dst` are `[CONNACK<<4, 2, (1 if SessionPresent else 0), ReturnCode]`; the
bytes behind them are left as they were. -/
theorem connack_Encode_layout (p : ConnackPacket) (dst : List Nat)
    (hrc : p.ReturnCode ≤ 5) (hdst : 4 ≤ dst.length) :
    p.Len = 4 ∧
      p.Encode dst = Result.ok 4
        ([CONNACK <<< 4, 2, if p.SessionPresent then 1 else 0, p.ReturnCode]
          ++ dst.drop 4) :=
  ⟨p.Len_eq, connack_Encode_eq p dst hrc hdst⟩

/-- C15 at `SessionPresent = true`, `ReturnCode = 0` and a destination of 4 bytes: the
bytes written are `[CONNACK<<4, 2, 1, 0]`. -/
theorem connack_Encode_layout_witness :
    ConnackPacket.Len { SessionPresent := true, ReturnCode := 0 } = 4 ∧
      ConnackPacket.Encode { SessionPresent := true, ReturnCode := 0 } [9, 9, 9, 9]
        = Result.ok 4 [CONNACK <<< 4, 2, 1, 0] :=
  connack_Encode_layout { SessionPresent := true, ReturnCode := 0 } [9, 9, 9, 9]
    (by decide) (by decide)

/-- C16. CONNACK return codes outside [0,5] are rejected in both directions:
`ConnackCode.Valid` holds exactly for the values 0..5; `Encode` of a packet with a return
code above 5 returns an error for every `dst`; and `Decode` returns an error on every
`src` whose return-code byte (the second byte behind the fixed header `b0 :: vs`) is
above 5. -/
theorem connack_return_code_checked :
    (∀ cc : Nat, ConnackCode.Valid cc = true ↔ cc ≤ 5) ∧
      (∀ (p : ConnackPacket) (dst : List Nat), 5 < p.ReturnCode →
        (p.Encode dst).isError = true) ∧
      (∀ (q : ConnackPacket) (b0 f rc : Nat) (vs tail : List Nat),
        isVarint vs = true → 5 < rc →
          (q.Decode ((b0 :: vs) ++ (f :: rc :: tail))).isError = true) := by
  refine ⟨?_, ?_, ?_⟩
  · intro cc; simp [ConnackCode.Valid]
  · intro p dst hrc
    obtain ⟨e, he⟩ := connack_Encode_invalid p dst hrc
    rw [he]; rfl
  · intro q b0 f rc vs tail hv hrc
    have hfit : ∀ hl flags,
        headerDecode ((b0 :: vs) ++ (f :: rc :: tail)) CONNACK = Result.ok hl (flags, 2) →
          hl + 2 ≤ ((b0 :: vs) ++ (f :: rc :: tail)).length := by
      intro hl flags hd
      have hhl := (headerDecode_ok_header b0 vs _ CONNACK hl flags 2 hv hd).1
      simp
      omega
    rcases connack_Decode_total q ((b0 :: vs) ++ (f :: rc :: tail)) hfit with
      ⟨e, he⟩ | ⟨n, p, hok⟩
    · rw [he]; rfl
    · obtain ⟨_, _, f', rc', tail', hrest, _, hrc', _⟩ :=
        connack_Decode_ok_header q b0 vs _ n p hv hok
      simp only [List.cons.injEq] at hrest
      obtain ⟨_, rfl, _⟩ := hrest
      omega

/-- C16 at the return code 6: not valid, rejected by `Encode` into a 4-byte buffer and
by `Decode` of `[CONNACK<<4, 2, 0, 6]`. -/
theorem connack_return_code_checked_witness :
    ConnackCode.Valid 6 = false ∧
      (ConnackPacket.Encode { SessionPresent := false, ReturnCode := 6 }
        [0, 0, 0, 0]).isError = true ∧
      (NewConnackPacket.Decode ((0x20 :: [2]) ++ (0 :: 6 :: []))).isError = true :=
  ⟨by decide,
    connack_return_code_checked.2.1 { SessionPresent := false, ReturnCode := 6 }
      [0, 0, 0, 0] (by decide),
    connack_return_code_checked.2.2 NewConnackPacket 0x20 0 6 [2] [] (by decide)
      (by decide)⟩

/-- C17. Reserved-bit rejection: `Decode` returns an error on every CONNACK byte
sequence whose acknowledge-flags byte `f` (the first byte behind the fixed header
`b0 :: vs`) has any of bits 1-7 set, whatever bit 0 and the bytes behind it are. -/
theorem connack_reserved_bits_rejected (q : ConnackPacket) (b0 f : Nat)
    (vs rest : List Nat) (hv : isVarint vs = true) (hf : f &&& 254 ≠ 0) :
    (q.Decode ((b0 :: vs) ++ (f :: rest))).isError = true := by
  unfold ConnackPacket.Decode
  cases hd : headerDecode ((b0 :: vs) ++ (f :: rest)) CONNACK with
  | panic => exact absurd hd (headerDecode_ne_panic _ CONNACK)
  | error e => rfl
  | ok hl fr =>
    obtain ⟨flags, rl⟩ := fr
    obtain ⟨rfl, rfl, _⟩ := headerDecode_ok_header b0 vs _ CONNACK hl flags rl hv hd
    simp only []
    by_cases h2 : varintValue vs = 2
    · rw [if_neg (by simpa using h2), getElem?_append_shift _ _ _ 0 (by simp; omega)]
      simp only [List.getElem?_cons_zero, ne_eq, hf, not_false_eq_true, if_true]
      rfl
    · rw [if_pos (by simpa using h2)]
      rfl

/-- C17 at `[CONNACK<<4, 2, 3, 0]`: bit 1 and bit 0 of the flags byte are set. -/
theorem connack_reserved_bits_rejected_witness :
    (NewConnackPacket.Decode ((0x20 :: [2]) ++ (3 :: [0]))).isError = true :=
  connack_reserved_bits_rejected NewConnackPacket 0x20 3 [2] [0] (by decide) (by decide)

/-- C18. On every byte slice whose fixed header `b0 :: vs` declares a remaining length
different from 2, `ConnackPacket.Decode` returns an error; whenever it succeeds the
declared remaining length is exactly 2. -/
theorem connack_remaining_length_two (q : ConnackPacket) (b0 : Nat) (vs rest : List Nat)
    (hv : isVarint vs = true) :
    (varintValue vs ≠ 2 → (q.Decode ((b0 :: vs) ++ rest)).isError = true) ∧
      ∀ n p, q.Decode ((b0 :: vs) ++ rest) = Result.ok n p → varintValue vs = 2 := by
  constructor
  · intro h2
    have hfit : ∀ hl flags,
        headerDecode ((b0 :: vs) ++ rest) CONNACK = Result.ok hl (flags, 2) →
          hl + 2 ≤ ((b0 :: vs) ++ rest).length := by
      intro hl flags hd
      exact absurd (headerDecode_ok_header b0 vs _ CONNACK hl flags 2 hv hd).2.1.symm h2
    rcases connack_Decode_total q ((b0 :: vs) ++ rest) hfit with ⟨e, he⟩ | ⟨n, p, hok⟩
    · rw [he]; rfl
    · exact absurd (connack_Decode_ok_header q b0 vs _ n p hv hok).1 h2
  · intro n p hok
    exact (connack_Decode_ok_header q b0 vs _ n p hv hok).1

/-- C18 at `[CONNACK<<4, 3, 0, 0, 0]`, whose header declares remaining length 3. -/
theorem connack_remaining_length_two_witness :
    (NewConnackPacket.Decode ((0x20 :: [3]) ++ [0, 0, 0])).isError = true :=
  (connack_remaining_length_two NewConnackPacket 0x20 [3] [0, 0, 0] (by decide)).1
    (by decide)

/-- C19. CONNACK round trip: for a return code in [0,5] and either value of
`SessionPresent`, encoding into a buffer of `Len()` bytes succeeds with 4 bytes
written, and decoding them into a fresh packet succeeds, consumes exactly 4 bytes and
yields the `SessionPresent` and `ReturnCode` of `p`. -/
theorem connack_round_trip (p : ConnackPacket) (dst : List Nat) (hrc : p.ReturnCode ≤ 5)
    (hdst : dst.length = p.Len) :
    ∃ d, p.Encode dst = Result.ok 4 d ∧ d.length = 4 ∧
      NewConnackPacket.Decode d = Result.ok 4 p := by
  rw [p.Len_eq] at hdst
  have hd : dst.drop 4 = [] := List.drop_eq_nil_of_le (by omega)
  refine ⟨[CONNACK <<< 4, 2, if p.SessionPresent then 1 else 0, p.ReturnCode], ?_, rfl, ?_⟩
  · rw [connack_Encode_eq p dst hrc (by omega), hd]; rfl
  · have := connack_Decode_ok NewConnackPacket (CONNACK <<< 4)
      (if p.SessionPresent then 1 else 0) p.ReturnCode [2] [] (by decide) (by decide)
      (by decide) (by decide) (by decide) (by cases p.SessionPresent <;> decide) hrc
    simp only [List.cons_append, List.nil_append, List.length_singleton] at this
    rw [this]
    obtain ⟨sp, rc⟩ := p
    cases sp <;> simp

/-- C19 at `SessionPresent = true`, `ReturnCode = 5`. -/
theorem connack_round_trip_witness :
    ∃ d, ConnackPacket.Encode { SessionPresent := true, ReturnCode := 5 } [0, 0, 0, 0]
          = Result.ok 4 d ∧ d.length = 4 ∧
      NewConnackPacket.Decode d = Result.ok 4 { SessionPresent := true, ReturnCode := 5 } :=
  connack_round_trip { SessionPresent := true, ReturnCode := 5 } [0, 0, 0, 0] (by decide)
    (by decide)

/-- A successful `ConnackPacket.Decode` has read both payload bytes inside `src`: the
consumed count `n` is at most `len(src)` and the acknowledge flags and the return code
are `src[n-2]` and `src[n-1]`.  Whether `Decode` can fail at the index expressions
`src[total]` (connack.go 112, 122) on a buffer that ends behind the header is decided
by `headerDecode`; see `connack_Decode_total`. -/
theorem connack_Decode_reads_inside (q : ConnackPacket) (src : List Nat) (n : Nat)
    (p : ConnackPacket) (hok : q.Decode src = Result.ok n p) :
    2 ≤ n ∧ n ≤ src.length ∧
      ∃ f rc, src[n - 2]? = some f ∧ src[n - 1]? = some rc ∧
        p = { SessionPresent := (f &&& 0x1) == 1, ReturnCode := rc } := by
  obtain ⟨b0, f, rc, vs, tail, rfl, _, _, _, _, _, rfl, _, _, hp⟩ :=
    connack_Decode_inv _ _ _ _ hok
  refine ⟨by omega, by simp; omega, f, rc, ?_, ?_, hp⟩
  · rw [getElem?_append_shift _ _ _ 0 (by simp; omega)]
    rfl
  · rw [getElem?_append_shift _ _ _ 1 (by simp; omega)]
    simp

/-! ## GetID -/

/-- C21 at a packet of a type outside the package whose `Type()` returns PUBLISH (for
instance a struct that embeds `*PublishPacket`): the type is identifier-carrying, the
switch of `GetID` takes the case PUBLISH, and the unchecked type assertion
`packet.(*PublishPacket)` fails, so `GetID` returns neither the identifier with `true`
nor `(0, false)`. -/
theorem GetID_foreign_type_assertion_fails :
    (GenericPacket.foreign PUBLISH).Type = PUBLISH ∧ carriesID PUBLISH = true ∧
      (GenericPacket.foreign PUBLISH).isPackageStruct = false ∧
      GetID (GenericPacket.foreign PUBLISH) = none := by
  decide

/-- What `GetID` does where no type assertion fails: for every packet whose `Type()` is
CONNECT, CONNACK, PINGREQ, PINGRESP or DISCONNECT, and for every packet whose `Type()` is
any other value outside the identifier-carrying set, it returns `(0, false)`; for every
packet struct of the package of an identifier-carrying type it returns the identifier
field of that packet and `true`; it returns a result on every packet struct of the
package. -/
theorem GetID_by_type (packet : GenericPacket) :
    (packet.Type = CONNECT ∨ packet.Type = CONNACK ∨ packet.Type = PINGREQ ∨
        packet.Type = PINGRESP ∨ packet.Type = DISCONNECT → GetID packet = some (0, false)) ∧
      (carriesID packet.Type = false → GetID packet = some (0, false)) ∧
      (packet.isPackageStruct = true → carriesID packet.Type = true →
        ∃ id, packet.ID = some id ∧ GetID packet = some (id, true)) ∧
      (packet.isPackageStruct = true → GetID packet ≠ none) := by
  have hout : carriesID packet.Type = false → GetID packet = some (0, false) := by
    intro h
    cases packet with
    | foreign t =>
      simp only [GenericPacket.Type, carriesID, Bool.or_eq_false_iff,
        decide_eq_false_iff_not] at h
      obtain ⟨⟨⟨⟨⟨⟨⟨⟨h1, h2⟩, h3⟩, h4⟩, h5⟩, h6⟩, h7⟩, h8⟩, h9⟩ := h
      simp only [GetID, GenericPacket.Type, if_neg h1, if_neg h2, if_neg h3, if_neg h4,
        if_neg h5, if_neg h6, if_neg h7, if_neg h8, if_neg h9]
    | connect => rfl
    | connack cm => rfl
    | pingreq => rfl
    | pingresp => rfl
    | disconnect => rfl
    | publish pm =>
      simp [carriesID, GenericPacket.Type, PublishPacket.Type, ConnackPacket.Type, CONNECT,
        CONNACK, PUBLISH, PUBACK, PUBREC, PUBREL, PUBCOMP, SUBSCRIBE, SUBACK, UNSUBSCRIBE,
        UNSUBACK, PINGREQ, PINGRESP, DISCONNECT] at h
    | puback id =>
      simp [carriesID, GenericPacket.Type, PublishPacket.Type, ConnackPacket.Type, CONNECT,
        CONNACK, PUBLISH, PUBACK, PUBREC, PUBREL, PUBCOMP, SUBSCRIBE, SUBACK, UNSUBSCRIBE,
        UNSUBACK, PINGREQ, PINGRESP, DISCONNECT] at h
    | pubrec id =>
      simp [carriesID, GenericPacket.Type, PublishPacket.Type, ConnackPacket.Type, CONNECT,
        CONNACK, PUBLISH, PUBACK, PUBREC, PUBREL, PUBCOMP, SUBSCRIBE, SUBACK, UNSUBSCRIBE,
        UNSUBACK, PINGREQ, PINGRESP, DISCONNECT] at h
    | pubrel id =>
      simp [carriesID, GenericPacket.Type, PublishPacket.Type, ConnackPacket.Type, CONNECT,
        CONNACK, PUBLISH, PUBACK, PUBREC, PUBREL, PUBCOMP, SUBSCRIBE, SUBACK, UNSUBSCRIBE,
        UNSUBACK, PINGREQ, PINGRESP, DISCONNECT] at h
    | pubcomp id =>
      simp [carriesID, GenericPacket.Type, PublishPacket.Type, ConnackPacket.Type, CONNECT,
        CONNACK, PUBLISH, PUBACK, PUBREC, PUBREL, PUBCOMP, SUBSCRIBE, SUBACK, UNSUBSCRIBE,
        UNSUBACK, PINGREQ, PINGRESP, DISCONNECT] at h
    | subscribe id =>
      simp [carriesID, GenericPacket.Type, PublishPacket.Type, ConnackPacket.Type, CONNECT,
        CONNACK, PUBLISH, PUBACK, PUBREC, PUBREL, PUBCOMP, SUBSCRIBE, SUBACK, UNSUBSCRIBE,
        UNSUBACK, PINGREQ, PINGRESP, DISCONNECT] at h
    | suback id =>
      simp [carriesID, GenericPacket.Type, PublishPacket.Type, ConnackPacket.Type, CONNECT,
        CONNACK, PUBLISH, PUBACK, PUBREC, PUBREL, PUBCOMP, SUBSCRIBE, SUBACK, UNSUBSCRIBE,
        UNSUBACK, PINGREQ, PINGRESP, DISCONNECT] at h
    | unsubscribe id =>
      simp [carriesID, GenericPacket.Type, PublishPacket.Type, ConnackPacket.Type, CONNECT,
        CONNACK, PUBLISH, PUBACK, PUBREC, PUBREL, PUBCOMP, SUBSCRIBE, SUBACK, UNSUBSCRIBE,
        UNSUBACK, PINGREQ, PINGRESP, DISCONNECT] at h
    | unsuback id =>
      simp [carriesID, GenericPacket.Type, PublishPacket.Type, ConnackPacket.Type, CONNECT,
        CONNACK, PUBLISH, PUBACK, PUBREC, PUBREL, PUBCOMP, SUBSCRIBE, SUBACK, UNSUBSCRIBE,
        UNSUBACK, PINGREQ, PINGRESP, DISCONNECT] at h
  refine ⟨?_, hout, ?_, ?_⟩
  · intro h
    apply hout
    rcases h with h | h | h | h | h <;> rw [h] <;> rfl
  · intro hp hc
    cases packet with
    | foreign t => simp [GenericPacket.isPackageStruct] at hp
    | connect =>
      simp [carriesID, GenericPacket.Type, PublishPacket.Type, ConnackPacket.Type, CONNECT,
        CONNACK, PUBLISH, PUBACK, PUBREC, PUBREL, PUBCOMP, SUBSCRIBE, SUBACK, UNSUBSCRIBE,
        UNSUBACK, PINGREQ, PINGRESP, DISCONNECT] at hc
    | connack cm =>
      simp [carriesID, GenericPacket.Type, PublishPacket.Type, ConnackPacket.Type, CONNECT,
        CONNACK, PUBLISH, PUBACK, PUBREC, PUBREL, PUBCOMP, SUBSCRIBE, SUBACK, UNSUBSCRIBE,
        UNSUBACK, PINGREQ, PINGRESP, DISCONNECT] at hc
    | pingreq =>
      simp [carriesID, GenericPacket.Type, PublishPacket.Type, ConnackPacket.Type, CONNECT,
        CONNACK, PUBLISH, PUBACK, PUBREC, PUBREL, PUBCOMP, SUBSCRIBE, SUBACK, UNSUBSCRIBE,
        UNSUBACK, PINGREQ, PINGRESP, DISCONNECT] at hc
    | pingresp =>
      simp [carriesID, GenericPacket.Type, PublishPacket.Type, ConnackPacket.Type, CONNECT,
        CONNACK, PUBLISH, PUBACK, PUBREC, PUBREL, PUBCOMP, SUBSCRIBE, SUBACK, UNSUBSCRIBE,
        UNSUBACK, PINGREQ, PINGRESP, DISCONNECT] at hc
    | disconnect =>
      simp [carriesID, GenericPacket.Type, PublishPacket.Type, ConnackPacket.Type, CONNECT,
        CONNACK, PUBLISH, PUBACK, PUBREC, PUBREL, PUBCOMP, SUBSCRIBE, SUBACK, UNSUBSCRIBE,
        UNSUBACK, PINGREQ, PINGRESP, DISCONNECT] at hc
    | publish pm => exact ⟨_, rfl, rfl⟩
    | puback id => exact ⟨_, rfl, rfl⟩
    | pubrec id => exact ⟨_, rfl, rfl⟩
    | pubrel id => exact ⟨_, rfl, rfl⟩
    | pubcomp id => exact ⟨_, rfl, rfl⟩
    | subscribe id => exact ⟨_, rfl, rfl⟩
    | suback id => exact ⟨_, rfl, rfl⟩
    | unsubscribe id => exact ⟨_, rfl, rfl⟩
    | unsuback id => exact ⟨_, rfl, rfl⟩
  · intro hp
    cases packet with
    | foreign t => simp [GenericPacket.isPackageStruct] at hp
    | connect => simp [GetID, GenericPacket.Type, CONNECT, PUBLISH, PUBACK, PUBREC, PUBREL,
        PUBCOMP, SUBSCRIBE, SUBACK, UNSUBSCRIBE, UNSUBACK]
    | connack cm => simp [GetID, GenericPacket.Type, ConnackPacket.Type, CONNACK, PUBLISH,
        PUBACK, PUBREC, PUBREL, PUBCOMP, SUBSCRIBE, SUBACK, UNSUBSCRIBE, UNSUBACK]
    | pingreq => simp [GetID, GenericPacket.Type, PINGREQ, PUBLISH, PUBACK, PUBREC, PUBREL,
        PUBCOMP, SUBSCRIBE, SUBACK, UNSUBSCRIBE, UNSUBACK]
    | pingresp => simp [GetID, GenericPacket.Type, PINGRESP, PUBLISH, PUBACK, PUBREC, PUBREL,
        PUBCOMP, SUBSCRIBE, SUBACK, UNSUBSCRIBE, UNSUBACK]
    | disconnect => simp [GetID, GenericPacket.Type, DISCONNECT, PUBLISH, PUBACK, PUBREC,
        PUBREL, PUBCOMP, SUBSCRIBE, SUBACK, UNSUBSCRIBE, UNSUBACK]
    | publish pm => simp [GetID, GenericPacket.Type, PublishPacket.Type]
    | puback id => simp [GetID, GenericPacket.Type, PUBLISH, PUBACK]
    | pubrec id => simp [GetID, GenericPacket.Type, PUBLISH, PUBACK, PUBREC]
    | pubrel id => simp [GetID, GenericPacket.Type, PUBLISH, PUBACK, PUBREC, PUBREL]
    | pubcomp id => simp [GetID, GenericPacket.Type, PUBLISH, PUBACK, PUBREC, PUBREL, PUBCOMP]
    | subscribe id => simp [GetID, GenericPacket.Type, PUBLISH, PUBACK, PUBREC, PUBREL,
        PUBCOMP, SUBSCRIBE]
    | suback id => simp [GetID, GenericPacket.Type, PUBLISH, PUBACK, PUBREC, PUBREL, PUBCOMP,
        SUBSCRIBE, SUBACK]
    | unsubscribe id => simp [GetID, GenericPacket.Type, PUBLISH, PUBACK, PUBREC, PUBREL,
        PUBCOMP, SUBSCRIBE, SUBACK, UNSUBSCRIBE]
    | unsuback id => simp [GetID, GenericPacket.Type, PUBLISH, PUBACK, PUBREC, PUBREL,
        PUBCOMP, SUBSCRIBE, SUBACK, UNSUBSCRIBE, UNSUBACK]

/-- C22, as stated, fails: for a PUBLISH packet with QoS 0 and the stored identifier 7
`GetID` returns `(7, true)`, not `(0, false)`. -/
theorem GetID_publish_qos0_present :
    GetID (GenericPacket.publish
        { Topic := [116], Payload := [], QOS := 0, Retain := false, Dup := false,
          PacketID := 7 }) = some (7, true) ∧
      GetID (GenericPacket.publish
        { Topic := [116], Payload := [], QOS := 0, Retain := false, Dup := false,
          PacketID := 7 }) ≠ some (0, false) := by
  decide

/-- C22, amended. For every `PublishPacket`, with QoS 0 as with any other QoS, `GetID`
returns the stored identifier field and `true`. -/
theorem GetID_publish (pm : PublishPacket) :
    GetID (GenericPacket.publish pm) = some (pm.PacketID, true) := rfl

/-! ## PUBLISH: Decode into a reused packet -/

/-- C23, as stated, fails: `[0x30, 3, 0, 1, 't']` (QoS 0, empty payload) decodes
successfully into a fresh packet and into a packet that holds an earlier identifier 7
and payload `[9]`; the first result has identifier 0 and an empty payload, the second
one keeps 7 and `[9]`. -/
theorem PublishPacket.Decode_keeps_stale_fields :
    NewPublishPacket.Decode [0x30, 3, 0, 1, 116] = Result.ok 5
        { Topic := [116], Payload := [], QOS := 0, Retain := false, Dup := false, PacketID := 0 } ∧
      PublishPacket.Decode
        { Topic := [1], Payload := [9], QOS := 1, Retain := false, Dup := false, PacketID := 7 }
        [0x30, 3, 0, 1, 116] = Result.ok 5
        { Topic := [116], Payload := [9], QOS := 0, Retain := false, Dup := false, PacketID := 7 } ∧
      ({ Topic := [116], Payload := [], QOS := 0, Retain := false, Dup := false, PacketID := 0 } :
          PublishPacket)
        ≠ { Topic := [116], Payload := [9], QOS := 0, Retain := false, Dup := false, PacketID := 7 } := by
  decide

/-- C23, amended. If `Decode(src)` succeeds on two receivers `q1` and `q2`, the consumed
counts are equal and the results are equal in Topic, QOS, Retain and Dup; PacketID is
equal when the decoded QoS is not 0, and with QoS 0 each result keeps the PacketID of
its receiver.  The decoded payload is the segment `payload` of `src` behind the
identifier bytes `idb` that extends to the end of the declared remaining length (the
value of the varint `vs`): when it is not empty, the Payload of both results is that
segment; when it is empty, each result keeps the Payload of its receiver.  The two
results are equal in every field when the two receivers held the same PacketID and
Payload. -/
theorem PublishPacket.Decode_receiver (src : List Nat) (q1 q2 : PublishPacket)
    (n1 n2 : Nat) (p1 p2 : PublishPacket)
    (h1 : q1.Decode src = Result.ok n1 p1) (h2 : q2.Decode src = Result.ok n2 p2) :
    n1 = n2 ∧ p1.Topic = p2.Topic ∧ p1.QOS = p2.QOS ∧ p1.Retain = p2.Retain ∧
      p1.Dup = p2.Dup ∧
      (p1.QOS ≠ 0 → p1.PacketID = p2.PacketID) ∧
      (p1.QOS = 0 → p1.PacketID = q1.PacketID ∧ p2.PacketID = q2.PacketID) ∧
      (∃ (b0 hi lo : Nat) (vs idb payload tail : List Nat),
        src = (b0 :: vs) ++ (hi :: lo :: (p1.Topic ++ (idb ++ (payload ++ tail)))) ∧
        isVarint vs = true ∧ p1.Topic.length = lo ||| (hi <<< 8) ∧
        idb.length = (if p1.QOS = 0 then 0 else 2) ∧
        n1 = 1 + vs.length + 2 + p1.Topic.length + idb.length + payload.length ∧
        (2 + p1.Topic.length + idb.length ≤ varintValue vs →
          2 + p1.Topic.length + idb.length + payload.length = varintValue vs) ∧
        (payload ≠ [] → p1.Payload = payload ∧ p2.Payload = payload) ∧
        (payload = [] → p1.Payload = q1.Payload ∧ p2.Payload = q2.Payload)) ∧
      (q1.PacketID = q2.PacketID → q1.Payload = q2.Payload → p1 = p2) := by
  obtain ⟨b0, hi, lo, vs, topic, idb, payload, tail, rfl, hvs, _, _, _, _, htl, hT, hQ,
    _, hR, hD, hid0, hid1, hP, hn, hc1, hc2⟩ := PublishPacket.Decode_inv _ _ _ _ h1
  obtain ⟨b0', hi', lo', vs', topic', idb', payload', tail', hs, hvs', _, _, _, _, htl', hT',
    hQ', _, hR', hD', hid0', hid1', hP', hn', hc1', hc2'⟩ := PublishPacket.Decode_inv _ _ _ _ h2
  simp only [List.cons_append, List.cons.injEq] at hs
  obtain ⟨rfl, hs⟩ := hs
  obtain ⟨rfl, hrest⟩ := isVarint_append_unique vs vs' _ _ hvs hvs' hs
  simp only [List.cons.injEq] at hrest
  obtain ⟨rfl, rfl, hrest⟩ := hrest
  obtain ⟨rfl, hrest2⟩ := List.append_inj hrest (by rw [htl, htl'])
  have hQQ : p1.QOS = p2.QOS := by rw [hQ, hQ']
  have hidb : idb = idb' ∧ (p1.QOS ≠ 0 → p1.PacketID = p2.PacketID) := by
    by_cases hq0 : p1.QOS = 0
    · rw [(hid0 hq0).1, (hid0' (hQQ ▸ hq0)).1]
      exact ⟨rfl, fun h => absurd hq0 h⟩
    · obtain ⟨ihi, ilo, hi1, hv1⟩ := hid1 hq0
      obtain ⟨ihi', ilo', hi2, hv2⟩ := hid1' (hQQ ▸ hq0)
      have := (List.append_inj hrest2 (by rw [hi1, hi2]; rfl)).1
      rw [hi1, hi2] at this
      simp only [List.cons.injEq, and_true] at this
      obtain ⟨rfl, rfl⟩ := this
      exact ⟨by rw [hi1, hi2], fun _ => by rw [hv1, hv2]⟩
  obtain ⟨rfl, hidq⟩ := hidb
  have hs2 := (List.append_inj hrest2 rfl).2
  have hpl : payload.length = payload'.length := by
    by_cases hle : 2 + topic.length + idb.length ≤ varintValue vs
    · have a := hc1 hle
      have b := hc1' hle
      omega
    · rw [hc2 (by omega), hc2' (by omega)]
  obtain ⟨rfl, _⟩ := List.append_inj hs2 hpl
  have hidl : idb.length = (if p1.QOS = 0 then 0 else 2) := by
    by_cases hq0 : p1.QOS = 0
    · rw [if_pos hq0, (hid0 hq0).1]; rfl
    · obtain ⟨ihi, ilo, hidb, _⟩ := hid1 hq0
      rw [if_neg hq0, hidb]; rfl
  refine ⟨by rw [hn, hn'], by rw [hT, hT'], hQQ, by rw [hR, hR'], by rw [hD, hD'], hidq,
    fun h0 => ⟨(hid0 h0).2, (hid0' (hQQ ▸ h0)).2⟩,
    ⟨b0, hi, lo, vs, idb, payload, tail, by rw [hT], hvs, by rw [hT]; exact htl, hidl,
      by rw [hT]; exact hn, fun hle => by rw [hT] at hle ⊢; exact (hc1 hle).symm,
      fun hne => ⟨by rw [hP, if_neg hne], by rw [hP', if_neg hne]⟩,
      fun he => ⟨by rw [hP, if_pos he], by rw [hP', if_pos he]⟩⟩, ?_⟩
  intro hqid hqpay
  have e1 : p1.Payload = p2.Payload := by rw [hP, hP', hqpay]
  have e2 : p1.PacketID = p2.PacketID := by
    by_cases hq0 : p1.QOS = 0
    · rw [(hid0 hq0).2, (hid0' (hQQ ▸ hq0)).2, hqid]
    · exact hidq hq0
  obtain ⟨t1, y1, s1, r1, d1, i1⟩ := p1
  obtain ⟨t2, y2, s2, r2, d2, i2⟩ := p2
  rw [PublishPacket.mk.injEq]
  exact ⟨hT.trans hT'.symm, e1, hQQ, hR.trans hR'.symm, hD.trans hD'.symm, e2⟩

/-- C23, amended, at the bytes of `BenchmarkPublishDecode` (QoS 1, payload "p"), decoded
into a fresh packet and into one that holds earlier field contents: both calls succeed
and the results are equal in every field the image carries. -/
theorem PublishPacket.Decode_receiver_witness :
    NewPublishPacket.Decode [0x32, 6, 0, 1, 116, 0, 1, 112] = Result.ok 8
        { Topic := [116], Payload := [112], QOS := 1, Retain := false, Dup := false,
          PacketID := 1 } ∧
      PublishPacket.Decode
        { Topic := [1], Payload := [9], QOS := 2, Retain := true, Dup := true, PacketID := 7 }
        [0x32, 6, 0, 1, 116, 0, 1, 112] = Result.ok 8
        { Topic := [116], Payload := [112], QOS := 1, Retain := false, Dup := false,
          PacketID := 1 } ∧
      (8 : Nat) = 8 :=
  ⟨by decide, by decide,
    (PublishPacket.Decode_receiver [0x32, 6, 0, 1, 116, 0, 1, 112] NewPublishPacket
      { Topic := [1], Payload := [9], QOS := 2, Retain := true, Dup := true, PacketID := 7 }
      8 8
      { Topic := [116], Payload := [112], QOS := 1, Retain := false, Dup := false,
        PacketID := 1 }
      { Topic := [116], Payload := [112], QOS := 1, Retain := false, Dup := false,
        PacketID := 1 }
      (by decide) (by decide)).1⟩

/-! ## Encode, then detect -/

/-- A successful `ConnackPacket.Encode` was given a valid return code and a destination
of at least 4 bytes. -/
theorem connack_Encode_ok_inv (c : ConnackPacket) (dst : List Nat) (n : Nat) (d : List Nat)
    (h : c.Encode dst = Result.ok n d) : c.ReturnCode ≤ 5 ∧ 4 ≤ dst.length := by
  constructor
  · by_contra hrc
    obtain ⟨e, he⟩ := connack_Encode_invalid c dst (by omega)
    rw [he] at h
    cases h
  · by_contra hdst
    have hlt : dst.length < 4 := by omega
    simp [ConnackPacket.Encode, headerEncode, ConnackPacket.Len_eq, hlt] at h

/-- C24. Encode-then-detect: whenever `PublishPacket.Encode` succeeds (as it does for
every valid packet and a destination of at least `Len()` bytes) it has written
`n = Len()` bytes and `DetectPacket(dst[:n])` returns exactly `(n, PUBLISH)`; whenever
`ConnackPacket.Encode` succeeds it has written 4 bytes and `DetectPacket` of them returns
`(4, CONNACK)`. -/
theorem Encode_then_detect :
    (∀ (p : PublishPacket) (dst : List Nat) (n : Nat) (d : List Nat),
        p.Encode dst = Result.ok n d →
          n = p.Len ∧ DetectPacket (d.take n) = ((n : Int), PUBLISH)) ∧
      (∀ (c : ConnackPacket) (dst : List Nat) (n : Nat) (d : List Nat),
        c.Encode dst = Result.ok n d →
          n = 4 ∧ DetectPacket (d.take n) = (4, CONNACK)) := by
  constructor
  · intro p dst n d h
    obtain ⟨ht, ht2, hq, hdst, vs, hvs⟩ := PublishPacket.Encode_ok_inv p dst n d h
    obtain ⟨hh, hmax⟩ := remainingLengthEncode_length _ _ hvs
    obtain ⟨vs', hvs', _, hv, hval, _⟩ := remainingLengthEncode_some _ hmax
    have hvv : vs' = vs := by rw [hvs] at hvs'; injection hvs' with h'; exact h'.symm
    subst hvv
    have hLen : p.Len = 1 + vs'.length + varintValue vs' := by
      simp only [PublishPacket.Len, ← hh, hval]
    have hk : vs'.length ≤ 8 := by
      have : headerLen p.len ≤ 5 := by unfold headerLen; split_ifs <;> omega
      omega
    rw [PublishPacket.Encode_raw p dst vs' ht ht2 hq hvs hdst] at h
    simp only [Result.ok.injEq] at h
    obtain ⟨rfl, rfl⟩ := h
    refine ⟨rfl, ?_⟩
    simp only [List.append_assoc]
    rw [List.take_append_eq_append_take,
      List.take_of_length_le (show (publishFirstByte p :: vs').length ≤ p.Len by simp; omega),
      DetectPacket_header _ vs' _ hv hk, (publishFirstByte_decode p (validQOS_le _ hq)).1,
      hLen]
  · intro c dst n d h
    obtain ⟨hrc, hdst⟩ := connack_Encode_ok_inv c dst n d h
    rw [connack_Encode_eq c dst hrc hdst] at h
    simp only [Result.ok.injEq] at h
    obtain ⟨rfl, rfl⟩ := h
    refine ⟨rfl, ?_⟩
    have e : List.take 4 ([CONNACK <<< 4, 2, if c.SessionPresent then 1 else 0, c.ReturnCode]
        ++ dst.drop 4)
        = ((CONNACK <<< 4) :: [2]) ++ [if c.SessionPresent then 1 else 0, c.ReturnCode] := by
      simp
    rw [e, DetectPacket_header (CONNACK <<< 4) [2] _ (by decide) (by decide)]
    rfl

/-- C24 at the packet of `TestPublishPacketEncode1` and at a CONNACK packet with
`SessionPresent = true`, `ReturnCode = 0`. -/
theorem Encode_then_detect_witness :
    DetectPacket (([0x3b, 23, 0, 7, 115, 117, 114, 103, 101, 109, 113, 0, 7,
        115, 101, 110, 100, 32, 109, 101, 32, 104, 111, 109, 101, 0, 0] : List Nat).take 25)
        = (25, PUBLISH) ∧
      DetectPacket (([0x20, 2, 1, 0, 9] : List Nat).take 4) = (4, CONNACK) :=
  ⟨(Encode_then_detect.1
      { Topic := [115, 117, 114, 103, 101, 109, 113],
        Payload := [115, 101, 110, 100, 32, 109, 101, 32, 104, 111, 109, 101],
        QOS := 1, Retain := true, Dup := true, PacketID := 7 }
      (List.replicate 27 0) 25
      [0x3b, 23, 0, 7, 115, 117, 114, 103, 101, 109, 113, 0, 7,
        115, 101, 110, 100, 32, 109, 101, 32, 104, 111, 109, 101, 0, 0]
      (by decide)).2,
    (Encode_then_detect.2 { SessionPresent := true, ReturnCode := 0 } [9, 9, 9, 9, 9] 4
      [0x20, 2, 1, 0, 9] (by decide)).2⟩

/-! ## DetectPacket on a growing buffer -/

/-- Once the loop of `binary.Uvarint` has returned a positive count, bytes appended to
the buffer do not change its result. -/
theorem uvarintLoop_append (buf ext : List Nat) :
    ∀ i x s : Nat, 0 < (uvarintLoop buf i x s).2 →
      uvarintLoop (buf ++ ext) i x s = uvarintLoop buf i x s := by
  induction buf with
  | nil => intro i x s h; simp [uvarintLoop] at h
  | cons b rest ih =>
    intro i x s h
    rw [List.cons_append, uvarintLoop, uvarintLoop]
    rw [uvarintLoop] at h
    by_cases hi : i = 10
    · rw [if_pos hi]; rw [if_pos hi]
    · rw [if_neg hi] at h ⊢
      rw [if_neg hi]
      by_cases hb : b < 0x80
      · rw [if_pos hb]; rw [if_pos hb]
      · rw [if_neg hb] at h ⊢
        rw [if_neg hb]
        exact ih _ _ _ h

/-- C25. `DetectPacket` is stable under arriving bytes: when `DetectPacket(src)` is
`(n, t)` with `n != 0`, then `DetectPacket(src ++ ext)` is `(n, t)` for every `ext`. -/
theorem DetectPacket_stable (src ext : List Nat) (n : Int) (t : Nat)
    (h : DetectPacket src = (n, t)) (hn : n ≠ 0) :
    DetectPacket (src ++ ext) = (n, t) := by
  cases src with
  | nil =>
    simp only [DetectPacket, List.length_nil, Nat.zero_lt_succ, if_true, Prod.mk.injEq] at h
    exact absurd h.1.symm hn
  | cons b0 tl =>
    unfold DetectPacket at h ⊢
    by_cases hlen : (b0 :: tl).length < 2
    · rw [if_pos hlen] at h
      simp only [Prod.mk.injEq] at h
      exact absurd h.1.symm hn
    · rw [if_neg hlen] at h
      have hlen2 : ¬ (b0 :: tl ++ ext).length < 2 := by
        simp only [List.length_append, List.length_cons] at hlen ⊢; omega
      rw [if_neg hlen2]
      simp only [List.cons_append, List.drop_succ_cons, List.drop_zero, List.headD_cons]
        at h ⊢
      by_cases hc : (Uvarint tl).2 ≤ 0
      · rw [if_pos hc] at h
        simp only [Prod.mk.injEq] at h
        exact absurd h.1.symm hn
      · have happ : Uvarint (tl ++ ext) = Uvarint tl :=
          uvarintLoop_append tl ext 0 0 0 (by simpa [Uvarint] using hc)
        rw [happ]
        exact h

/-- C25 at the 2-byte buffer `[0x30, 5]`, detected as a packet of 7 bytes, and the five
bytes that complete it. -/
theorem DetectPacket_stable_witness :
    DetectPacket ([0x30, 5] ++ [0, 1, 116, 1, 2]) = (7, 3) :=
  DetectPacket_stable [0x30, 5] [0, 1, 116, 1, 2] 7 3 (by decide) (by decide)

end packet
